import Mathlib

/-!
Verification of the plugin execution and tool-call orchestration engine of the
MeetWith middleware (Python backend).  The definitions below are a shallow
embedding of the relevant code in `src/backend/server.py`,
`src/backend/plugin_manager.py` and `src/backend/code_executor.py`.
Python strings are modelled as `List Char`; Python dicts as insertion-ordered
association lists.
-/

namespace MeetWith

/-- Python whitespace test used by `str.strip` and the regex class `\s`
(ASCII portion, which is all the source ever strips). -/
def isPySpace (c : Char) : Bool :=
  c = ' ' || c = '\t' || c = '\n' || c = '\r' || c = '\x0b' || c = '\x0c'

/-- Character class `[\w_]` of the parameter regex in
`server.py:459` / `server.py:502` (ASCII portion of the Python `\w`;
every key appearing in the claims is ASCII). -/
def pyWordChar (c : Char) : Bool :=
  c.isAlphanum || c = '_'

/-- Python `str.strip()`: drop whitespace from both ends. -/
def pstrip (s : List Char) : List Char :=
  ((s.dropWhile isPySpace).reverse.dropWhile isPySpace).reverse

/-- Boolean prefix test on character lists. -/
def isPre : List Char → List Char → Bool
  | [], _ => true
  | _ :: _, [] => false
  | a :: p, b :: s => a = b && isPre p s

/-- Python `str.find(pat)`: index of the first occurrence of `pat`
in `s`, `none` when absent (Python returns -1). -/
def findSub (pat : List Char) : List Char → Option Nat
  | [] => if isPre pat [] then some 0 else none
  | b :: t => if isPre pat (b :: t) then some 0 else (findSub pat t).map (· + 1)

/-- Boolean containment of `pat` as a contiguous substring of `s`. -/
def containsSub (pat s : List Char) : Bool :=
  (findSub pat s).isSome

/-- Start marker of a tool-call block (`server.py:445,488`). -/
def startMarker : List Char := "<<<[TOOL_REQUEST]>>>".data

/-- End marker of a tool-call block (`server.py:446,489`). -/
def endMarker : List Char := "<<<[END_TOOL_REQUEST]>>>".data

/-- Opening value-quote glyph of the parameter grammar (`server.py:459`). -/
def startQuote : List Char := "「始」".data

/-- Closing value-quote glyph of the parameter grammar (`server.py:459`). -/
def endQuote : List Char := "「末」".data

/-- The reserved key (`server.py:468,511`). -/
def toolNameKey : List Char := "tool_name".data

/-- One match of the parameter regex
`([\w_]+)\s*:\s*「始」([\s\S]*?)「末」\s*(?:,)?` attempted at the head of `s`
(`server.py:459,502`).  Returns the two capture groups (key, raw value) and
the remaining text after the whole match.  The greedy `[\w_]+` takes the
maximal word run (backtracking cannot help: after a shorter run the next
character is again a word character, never whitespace or a colon); the lazy
`[\s\S]*?` stops at the first occurrence of the closing glyph; the trailing
`\s*(?:,)?` takes the maximal whitespace run and then one optional comma. -/
def matchPairAt (s : List Char) : Option ((List Char × List Char) × List Char) :=
  let key := s.takeWhile pyWordChar
  if key.isEmpty then none
  else
    match (s.drop key.length).dropWhile isPySpace with
    | [] => none
    | c :: s2 =>
      if c = ':' then
        let s3 := s2.dropWhile isPySpace
        if isPre startQuote s3 then
          let s4 := s3.drop startQuote.length
          match findSub endQuote s4 with
          | none => none
          | some k =>
            let value := s4.take k
            let s5 := (s4.drop (k + endQuote.length)).dropWhile isPySpace
            let rest := if s5.head? = some ',' then s5.tail else s5
            some ((key, value), rest)
        else none
      else none

theorem matchPairAt_length_lt (s : List Char) (kv : List Char × List Char)
    (rest : List Char) (h : matchPairAt s = some (kv, rest)) :
    rest.length < s.length := by
  unfold matchPairAt at h
  simp only [] at h
  split at h
  · exact absurd h (by simp)
  next hk =>
    split at h
    · exact absurd h (by simp)
    next c s2 hd =>
      split at h
      · split at h
        next hq =>
          split at h
          · exact absurd h (by simp)
          next k hf =>
            simp only [Option.some.injEq, Prod.mk.injEq] at h
            have hr : rest.length ≤ s2.length := by
              have base : ((((s2.dropWhile isPySpace).drop startQuote.length).drop
                  (k + endQuote.length)).dropWhile isPySpace).length ≤ s2.length := by
                calc ((((s2.dropWhile isPySpace).drop startQuote.length).drop
                      (k + endQuote.length)).dropWhile isPySpace).length
                    ≤ (((s2.dropWhile isPySpace).drop startQuote.length).drop
                      (k + endQuote.length)).length := (List.dropWhile_sublist _).length_le
                  _ ≤ ((s2.dropWhile isPySpace).drop startQuote.length).length :=
                      (List.drop_sublist _ _).length_le
                  _ ≤ (s2.dropWhile isPySpace).length := (List.drop_sublist _ _).length_le
                  _ ≤ s2.length := (List.dropWhile_sublist _).length_le
              rcases h with ⟨-, hrest⟩
              subst hrest
              split
              · exact le_trans (by rw [List.length_tail]; exact Nat.sub_le _ _) base
              · exact base
            have hcons : s2.length + 1 ≤ s.length - (s.takeWhile pyWordChar).length := by
              have : (c :: s2).length ≤ ((s.drop (s.takeWhile pyWordChar).length)).length := by
                rw [← hd]
                exact (List.dropWhile_sublist _).length_le
              simpa using this
            have hk1 : 1 ≤ (s.takeWhile pyWordChar).length := by
              rcases hT : s.takeWhile pyWordChar with _ | ⟨a, t⟩
              · rw [hT] at hk; simp at hk
              · simp
            have hkle : (s.takeWhile pyWordChar).length ≤ s.length :=
              (List.takeWhile_sublist _).length_le
            omega
        · exact absurd h (by simp)
      · exact absurd h (by simp)

/-- Fuelled scanner of the `re.finditer` loop; the fuel only bounds the
number of scan steps (each step strictly shortens the text, so any fuel
above the text length is enough — `findIterF_congr`). -/
def findIterF : Nat → List Char → List (List Char × List Char)
  | 0, _ => []
  | fuel + 1, s =>
    match s with
    | [] => []
    | c :: t =>
      match matchPairAt (c :: t) with
      | some (kv, rest) => kv :: findIterF fuel rest
      | none => findIterF fuel t

theorem findIterF_congr :
    ∀ (f g : Nat) (s : List Char), s.length < f → s.length < g →
      findIterF f s = findIterF g s := by
  intro f
  induction f with
  | zero => intro g s hf _; omega
  | succ f ih =>
    intro g s hf hg
    cases g with
    | zero => omega
    | succ g =>
      show findIterF (f + 1) s = findIterF (g + 1) s
      unfold findIterF
      cases s with
      | nil => rfl
      | cons c t =>
        dsimp only
        rcases hm : matchPairAt (c :: t) with _ | ⟨kv, rest⟩
        · have ht : t.length < f := by
            simp only [List.length_cons] at hf
            omega
          have ht2 : t.length < g := by
            simp only [List.length_cons] at hg
            omega
          exact ih g t ht ht2
        · have hlt := matchPairAt_length_lt _ _ _ hm
          have h1 : rest.length < f := by
            simp only [List.length_cons] at hf hlt ⊢
            omega
          have h2 : rest.length < g := by
            simp only [List.length_cons] at hg hlt ⊢
            omega
          dsimp only
          rw [ih g rest h1 h2]

/-- The `re.finditer` loop over the parameter regex: the list of
(key, raw value) capture pairs in order of appearance.  Where no match starts
at the current position the scan advances by one character, exactly as the
regex engine does. -/
def findIter (s : List Char) : List (List Char × List Char) :=
  findIterF (s.length + 1) s

theorem findSub_isPre_drop (pat : List Char) :
    ∀ (s : List Char) (i : Nat), findSub pat s = some i → isPre pat (s.drop i) = true := by
  intro s
  induction s with
  | nil =>
    intro i h
    unfold findSub at h
    split at h
    next hp =>
      simp only [Option.some.injEq] at h
      subst h
      simpa using hp
    · exact absurd h (by simp)
  | cons b t ih =>
    intro i h
    unfold findSub at h
    split at h
    next hp =>
      simp only [Option.some.injEq] at h
      subst h
      simpa using hp
    next hp =>
      rcases hf : findSub pat t with _ | j
      · rw [hf] at h; simp at h
      · rw [hf] at h
        simp only [Option.map_some', Option.some.injEq] at h
        subst h
        simpa using ih j hf

theorem isPre_cons_ne_nil {a : Char} {p s : List Char} (h : isPre (a :: p) s = true) :
    s ≠ [] := by
  cases s
  · simp [isPre] at h
  · simp

theorem findSub_lt_length {pat s : List Char} {i : Nat}
    (hne : pat ≠ []) (h : findSub pat s = some i) : i < s.length := by
  rcases pat with _ | ⟨c, p⟩
  · exact absurd rfl hne
  · have h1 := findSub_isPre_drop (c :: p) s i h
    have h2 := isPre_cons_ne_nil h1
    by_contra hle
    push_neg at hle
    exact h2 (List.drop_eq_nil_of_le (by omega))

/-- Tool-call request extracted from one delimited block: the reserved
`tool_name` value plus the insertion-ordered argument map
(`server.py:474,517`). -/
structure VcpRequest where
  tool_name : List Char
  args : List (List Char × List Char)
deriving DecidableEq, Repr

/-- Python dict assignment `params[key] = value`: replace in place when the
key exists, append otherwise (insertion order preserved). -/
def dictInsert (m : List (List Char × List Char)) (k v : List Char) :
    List (List Char × List Char) :=
  if m.any (fun kv => kv.1 = k) then
    m.map (fun kv => if kv.1 = k then (k, v) else kv)
  else m ++ [(k, v)]

/-- Body of the `for match in re.finditer(...)` loop
(`server.py:464-471` and `server.py:507-514`): strip the raw value, route
the reserved key to `tool_name`, anything else to the params dict. -/
def buildStep (acc : Option (List Char) × List (List Char × List Char))
    (kv : List Char × List Char) : Option (List Char) × List (List Char × List Char) :=
  let value := pstrip kv.2
  if kv.1 = toolNameKey then (some value, acc.2)
  else (acc.1, dictInsert acc.2 kv.1 value)

/-- The pair-list to request conversion ending both parse functions:
`if tool_name:` is the Python truthiness test, false for `None` and for the
empty string (`server.py:473-476,516-517`). -/
def buildFromPairs (pairs : List (List Char × List Char)) : Option VcpRequest :=
  match pairs.foldl buildStep (none, []) with
  | (some n, params) => if n = [] then none else some ⟨n, params⟩
  | (none, _) => none

/-- Embedding of `parse_vcp_request` (`server.py:440-476`): only the first
start marker is considered; a missing end marker yields `none`; the block
between the markers is stripped and scanned for parameter pairs. -/
def parseVcpRequest (content : List Char) : Option VcpRequest :=
  match findSub startMarker content with
  | none => none
  | some i =>
    match findSub endMarker (content.drop i) with
    | none => none
    | some j =>
      let block := pstrip (((content.drop i).take j).drop startMarker.length)
      buildFromPairs (findIter block)

/-- Fuelled body of the `while True` loop of `parse_multiple_vcp_requests`;
each iteration strictly shortens the remaining text, so any fuel above the
text length is enough (`parseLoopF_congr`). -/
def parseLoopF : Nat → List Char → List VcpRequest
  | 0, _ => []
  | fuel + 1, content =>
    match findSub startMarker content with
    | none => []
    | some i =>
      match findSub endMarker (content.drop i) with
      | none => []
      | some j =>
        let block := pstrip (((content.drop i).take j).drop startMarker.length)
        let rest := (content.drop i).drop (j + endMarker.length)
        (match buildFromPairs (findIter block) with
          | some r => [r]
          | none => []) ++ parseLoopF fuel rest

theorem parseLoopF_rest_lt {content : List Char} {i : Nat}
    (hs : findSub startMarker content = some i) (j : Nat) :
    ((content.drop i).drop (j + endMarker.length)).length < content.length := by
  have hi : i < content.length := findSub_lt_length (by decide) hs
  have he : 0 < endMarker.length := by decide
  simp only [List.drop_drop, List.length_drop]
  omega

theorem parseLoopF_congr :
    ∀ (f g : Nat) (content : List Char), content.length < f →
      content.length < g → parseLoopF f content = parseLoopF g content := by
  intro f
  induction f with
  | zero => intro g content hf _; omega
  | succ f ih =>
    intro g content hf hg
    cases g with
    | zero => omega
    | succ g =>
      show parseLoopF (f + 1) content = parseLoopF (g + 1) content
      unfold parseLoopF
      rcases hs : findSub startMarker content with _ | i
      · rfl
      · dsimp only
        rcases he : findSub endMarker (content.drop i) with _ | j
        · rfl
        · have hlt := parseLoopF_rest_lt hs j
          dsimp only
          rw [ih g _ (by omega) (by omega)]

/-- Embedding of `parse_multiple_vcp_requests` (`server.py:479-521`): the
while loop advances `search_offset` past each end marker; a block whose
`tool_name` is missing or empty contributes nothing; a missing start or end
marker terminates the loop. -/
def parseMultipleVcpRequests (content : List Char) : List VcpRequest :=
  parseLoopF (content.length + 1) content

/-- Start of a fenced python code block, from the regex
`r'```python\n(.*?)```'` (`server.py:541`). -/
def codeFenceStart : List Char := "```python\n".data

/-- Closing fence of the same regex. -/
def codeFenceEnd : List Char := "```".data

/-- Fuelled body of the `re.findall` scan of `extract_code_blocks`. -/
def extractCodeBlocksF : Nat → List Char → List (List Char)
  | 0, _ => []
  | fuel + 1, content =>
    match findSub codeFenceStart content with
    | none => []
    | some i =>
      let after := (content.drop i).drop codeFenceStart.length
      match findSub codeFenceEnd after with
      | none => []
      | some j =>
        after.take j :: extractCodeBlocksF fuel (after.drop (j + codeFenceEnd.length))

theorem extractCodeBlocksF_rest_lt {content : List Char} {i : Nat}
    (hs : findSub codeFenceStart content = some i) (j : Nat) :
    (((content.drop i).drop codeFenceStart.length).drop
      (j + codeFenceEnd.length)).length < content.length := by
  have hi : i < content.length := findSub_lt_length (by decide) hs
  have he : 0 < codeFenceEnd.length := by decide
  simp only [List.drop_drop, List.length_drop]
  omega

theorem extractCodeBlocksF_congr :
    ∀ (f g : Nat) (content : List Char), content.length < f →
      content.length < g → extractCodeBlocksF f content = extractCodeBlocksF g content := by
  intro f
  induction f with
  | zero => intro g content hf _; omega
  | succ f ih =>
    intro g content hf hg
    cases g with
    | zero => omega
    | succ g =>
      show extractCodeBlocksF (f + 1) content = extractCodeBlocksF (g + 1) content
      unfold extractCodeBlocksF
      rcases hs : findSub codeFenceStart content with _ | i
      · rfl
      · dsimp only
        rcases he : findSub codeFenceEnd ((content.drop i).drop codeFenceStart.length)
          with _ | j
        · rfl
        · have hlt := extractCodeBlocksF_rest_lt hs j
          dsimp only
          rw [ih g _ (by omega) (by omega)]

/-- Embedding of `extract_code_blocks` (`server.py:526-542`): `re.findall`
with a lazy body capture, resuming after each full match. -/
def extractCodeBlocks (content : List Char) : List (List Char) :=
  extractCodeBlocksF (content.length + 1) content

/-- Embedding of `has_code_blocks` (`server.py:545-555`). -/
def hasCodeBlocks (content : List Char) : Bool :=
  !(extractCodeBlocks content).isEmpty

/-! Rendering of requests back into the delimited markup.  The repository
only parses this markup; rendering is modelled from the spec (sections 4.6
and 6: blocks delimited by the fixed start/end markers, `key:「始」value「末」`
pairs separated by commas, the reserved pair first). -/

/-- Modelled from the spec: one `key:「始」value「末」` pair. -/
def renderPair (kv : List Char × List Char) : List Char :=
  kv.1 ++ ':' :: (startQuote ++ kv.2 ++ endQuote)

/-- Modelled from the spec: comma-separated pair list. -/
def joinPairs : List (List Char × List Char) → List Char
  | [] => []
  | [p] => renderPair p
  | p :: ps => renderPair p ++ ',' :: joinPairs ps

/-- Modelled from the spec: one delimited block, the reserved `tool_name`
pair first, then the argument pairs in order. -/
def renderRequest (r : VcpRequest) : List Char :=
  startMarker ++ joinPairs ((toolNameKey, r.tool_name) :: r.args) ++ endMarker

/-- Modelled from the spec: concatenation of the blocks of several requests. -/
def renderRequests : List VcpRequest → List Char
  | [] => []
  | r :: rs => renderRequest r ++ renderRequests rs

/-! Theory of `isPre`, `findSub` and substring occurrences, used to prove
the parsing lemmas. -/

theorem isPre_append_self (p r : List Char) : isPre p (p ++ r) = true := by
  induction p with
  | nil => rfl
  | cons a t ih => simp [isPre, ih]

theorem isPre_length_le {p s : List Char} (h : isPre p s = true) :
    p.length ≤ s.length := by
  induction p generalizing s with
  | nil => simp
  | cons a t ih =>
    cases s with
    | nil => simp [isPre] at h
    | cons b u =>
      simp only [isPre, Bool.and_eq_true] at h
      simpa using ih h.2

theorem isPre_of_le_append {p xs : List Char} (ys : List Char)
    (hle : p.length ≤ xs.length) : isPre p (xs ++ ys) = isPre p xs := by
  induction p generalizing xs with
  | nil => simp [isPre]
  | cons a t ih =>
    cases xs with
    | nil => simp at hle
    | cons b u =>
      simp only [List.cons_append, isPre, List.append_eq]
      rw [ih (by simpa using hle)]

theorem isPre_append_split {p : List Char} (xs ys : List Char)
    (h : isPre p (xs ++ ys) = true) : isPre (p.drop xs.length) ys = true := by
  induction xs generalizing p with
  | nil => simpa using h
  | cons b u ih =>
    cases p with
    | nil => simp [isPre]
    | cons a t =>
      simp only [List.cons_append, isPre, Bool.and_eq_true] at h
      simpa using ih h.2

theorem isPre_take_eq {p : List Char} (xs ys : List Char)
    (h : isPre p (xs ++ ys) = true) (hle : xs.length ≤ p.length) :
    p.take xs.length = xs := by
  induction xs generalizing p with
  | nil => simp
  | cons b u ih =>
    cases p with
    | nil => simp at hle
    | cons a t =>
      simp only [List.cons_append, isPre, Bool.and_eq_true, decide_eq_true_eq] at h
      simp only [List.length_cons, List.take_succ_cons, h.1]
      rw [ih h.2 (by simpa using hle)]

theorem isPre_head_eq {p s : List Char} (h : isPre p s = true) (hne : p ≠ []) :
    p.head? = s.head? := by
  cases p with
  | nil => exact absurd rfl hne
  | cons a t =>
    cases s with
    | nil => simp [isPre] at h
    | cons b u =>
      simp only [isPre, Bool.and_eq_true, decide_eq_true_eq] at h
      simp [h.1]

/-- No occurrence of `pat` as a contiguous substring of `s`. -/
def noOccur (pat s : List Char) : Prop :=
  ∀ i, isPre pat (s.drop i) = false

theorem findSub_eq_none_iff (pat : List Char) :
    ∀ s : List Char, findSub pat s = none ↔ noOccur pat s := by
  intro s
  induction s with
  | nil =>
    unfold findSub
    constructor
    · intro h i
      split at h
      · simp at h
      next hp => simpa using Bool.eq_false_iff.mpr hp
    · intro h
      have := h 0
      simp only [List.drop_nil] at this
      simp [this]
  | cons b t ih =>
    unfold findSub
    constructor
    · intro h i
      split at h
      · simp at h
      next hp =>
        cases i with
        | zero => simpa using Bool.eq_false_iff.mpr hp
        | succ j =>
          have ht : findSub pat t = none := by
            rcases hf : findSub pat t with _ | k
            · rfl
            · rw [hf] at h; simp at h
          simpa using (ih.mp ht) j
    · intro h
      have h0 := h 0
      simp only [List.drop_zero] at h0
      rw [if_neg (by simp [h0])]
      have ht : noOccur pat t := fun j => by simpa using h (j + 1)
      rw [ih.mpr ht]
      rfl

theorem containsSub_eq_false_iff {pat s : List Char} :
    containsSub pat s = false ↔ noOccur pat s := by
  unfold containsSub
  constructor
  · intro h
    refine (findSub_eq_none_iff pat s).mp ?_
    rcases hf : findSub pat s with _ | i
    · rfl
    · rw [hf] at h; simp at h
  · intro h
    rw [(findSub_eq_none_iff pat s).mpr h]
    rfl

theorem noOccur_of_short {pat s : List Char} (h : s.length < pat.length) :
    noOccur pat s := by
  intro i
  by_contra hb
  rw [Bool.not_eq_false] at hb
  have := isPre_length_le hb
  have hd : (s.drop i).length ≤ s.length := by
    simp [List.length_drop]
  omega

/-- The pattern does not overlap a shifted copy of itself: no proper
nonempty tail of `pat` is a prefix of `pat`.  Decidable, checked by
`decide` for the concrete markers. -/
@[reducible] def selfNoOverlap (pat : List Char) : Prop :=
  ∀ d, d < pat.length → 0 < d → isPre (pat.drop d) pat = false

theorem findSub_of_isPre {pat s : List Char} (h : isPre pat s = true) :
    findSub pat s = some 0 := by
  cases s with
  | nil => unfold findSub; simp [h]
  | cons b t => unfold findSub; simp [h]

theorem findSub_boundary {pat : List Char} (hso : selfNoOverlap pat) :
    ∀ (u rest : List Char), noOccur pat u →
      findSub pat (u ++ pat ++ rest) = some u.length := by
  intro u
  induction u with
  | nil =>
    intro rest _
    simpa using findSub_of_isPre (by simpa using isPre_append_self pat rest)
  | cons c u' ih =>
    intro rest hno
    have hhead : isPre pat ((c :: u') ++ (pat ++ rest)) = false := by
      by_contra hb
      rw [Bool.not_eq_false] at hb
      by_cases hlen : pat.length ≤ (c :: u').length
      · rw [isPre_of_le_append _ hlen] at hb
        have h0 := hno 0
        simp only [List.drop_zero] at h0
        exact absurd hb (by simp [h0])
      · push_neg at hlen
        have hsplit := isPre_append_split (c :: u') (pat ++ rest) hb
        have hd : (pat.drop (c :: u').length).length ≤ pat.length := by
          simp [List.length_drop]
        rw [isPre_of_le_append _ hd] at hsplit
        have := hso (c :: u').length hlen (by simp)
        rw [this] at hsplit
        simp at hsplit
    have hno' : noOccur pat u' := fun j => by simpa using hno (j + 1)
    show findSub pat (c :: (u' ++ pat ++ rest)) = some (u'.length + 1)
    unfold findSub
    rw [if_neg (by simpa using hhead)]
    rw [ih rest hno']
    rfl

theorem drop_append_ge (xs : List Char) :
    ∀ (ys : List Char) (i : Nat), xs.length ≤ i →
      (xs ++ ys).drop i = ys.drop (i - xs.length) := by
  induction xs with
  | nil => intro ys i _; simp
  | cons a t ih =>
    intro ys i hi
    cases i with
    | zero => simp at hi
    | succ j =>
      simp only [List.cons_append, List.drop_succ_cons]
      rw [ih ys j (by simpa using hi)]
      simp [Nat.succ_sub_succ]

theorem drop_append_lt (xs : List Char) :
    ∀ (ys : List Char) (i : Nat), i < xs.length →
      (xs ++ ys).drop i = xs.drop i ++ ys := by
  induction xs with
  | nil => intro ys i hi; simp at hi
  | cons a t ih =>
    intro ys i hi
    cases i with
    | zero => simp
    | succ j =>
      simp only [List.cons_append, List.drop_succ_cons]
      exact ih ys j (by simpa using hi)

theorem head?_append_ne {xs : List Char} (ys : List Char) (h : xs ≠ []) :
    (xs ++ ys).head? = xs.head? := by
  cases xs with
  | nil => exact absurd rfl h
  | cons a t => simp

theorem getLast?_append_ne (xs : List Char) {ys : List Char} (h : ys ≠ []) :
    (xs ++ ys).getLast? = ys.getLast? := by
  rw [← List.head?_reverse, ← List.head?_reverse, List.reverse_append]
  exact head?_append_ne _ (by simpa using h)

theorem head?_take_pos {l : List Char} {n : Nat} (h : 0 < n) :
    (l.take n).head? = l.head? := by
  cases l with
  | nil => simp
  | cons a t =>
    cases n with
    | zero => omega
    | succ m => simp

theorem getLast?_drop {xs : List Char} {i : Nat} (h : i < xs.length) :
    (xs.drop i).getLast? = xs.getLast? := by
  rw [← List.head?_reverse, ← List.head?_reverse, List.reverse_drop]
  exact head?_take_pos (by omega)

/-- If `pat` occurs nowhere in `xs` nor in `ys`, and no nonempty proper tail
of `pat` whose head matches the head of `ys` exists, then `pat` occurs
nowhere in `xs ++ ys`.  The head condition rules out occurrences crossing
the boundary. -/
theorem noOccur_append_right {pat xs ys : List Char} {c : Char}
    (hx : noOccur pat xs) (hy : noOccur pat ys) (hc : ys.head? = some c)
    (hpat : ∀ d, d < pat.length → 0 < d → (pat.drop d).head? ≠ some c) :
    noOccur pat (xs ++ ys) := by
  intro i
  by_contra hb
  rw [Bool.not_eq_false] at hb
  by_cases hi : xs.length ≤ i
  · rw [drop_append_ge xs ys i hi] at hb
    exact absurd hb (by simp [hy (i - xs.length)])
  · push_neg at hi
    rw [drop_append_lt xs ys i hi] at hb
    by_cases hlen : pat.length ≤ (xs.drop i).length
    · rw [isPre_of_le_append _ hlen] at hb
      exact absurd hb (by simp [hx i])
    · push_neg at hlen
      have hsplit := isPre_append_split (xs.drop i) ys hb
      have hd0 : 0 < (xs.drop i).length := by
        simp only [List.length_drop]
        omega
      have hpne : pat.drop (xs.drop i).length ≠ [] := by
        intro hcon
        have hl := congrArg List.length hcon
        rw [List.length_drop] at hl
        simp only [List.length_nil] at hl
        omega
      have := isPre_head_eq hsplit hpne
      rw [hc] at this
      exact hpat (xs.drop i).length hlen hd0 this

/-- Like `noOccur_append_right`, with the boundary ruled out on the left:
no nonempty prefix of `pat` ends in the last character of `xs`. -/
theorem noOccur_append_left {pat xs ys : List Char} {c : Char}
    (hx : noOccur pat xs) (hy : noOccur pat ys) (hc : xs.getLast? = some c)
    (hpat : ∀ d, d ≤ pat.length → 0 < d → (pat.take d).getLast? ≠ some c) :
    noOccur pat (xs ++ ys) := by
  intro i
  by_contra hb
  rw [Bool.not_eq_false] at hb
  by_cases hi : xs.length ≤ i
  · rw [drop_append_ge xs ys i hi] at hb
    exact absurd hb (by simp [hy (i - xs.length)])
  · push_neg at hi
    rw [drop_append_lt xs ys i hi] at hb
    by_cases hlen : pat.length ≤ (xs.drop i).length
    · rw [isPre_of_le_append _ hlen] at hb
      exact absurd hb (by simp [hx i])
    · push_neg at hlen
      have htake := isPre_take_eq (xs.drop i) ys hb (le_of_lt hlen)
      have hd0 : 0 < (xs.drop i).length := by
        simp only [List.length_drop]
        omega
      have hlast : (pat.take (xs.drop i).length).getLast? = some c := by
        rw [htake, getLast?_drop hi, hc]
      exact hpat (xs.drop i).length (le_of_lt hlen) hd0 hlast

/-- A string of word characters contains no occurrence of a pattern whose
first character is not a word character. -/
theorem noOccur_word {pat s : List Char} {c : Char} (hhead : pat.head? = some c)
    (hc : pyWordChar c = false) (hs : ∀ x ∈ s, pyWordChar x = true) :
    noOccur pat s := by
  intro i
  by_contra hb
  rw [Bool.not_eq_false] at hb
  have hpne : pat ≠ [] := by
    intro hcon
    rw [hcon] at hhead
    simp at hhead
  have hheads := isPre_head_eq hb hpne
  rw [hhead] at hheads
  rcases hT : s.drop i with _ | ⟨b, t⟩
  · rw [hT] at hheads; simp at hheads
  · rw [hT] at hheads
    simp only [List.head?_cons, Option.some.injEq] at hheads
    have hmem : b ∈ s := (List.drop_subset i s) (by rw [hT]; exact List.mem_cons_self b t)
    rw [← hheads] at hmem
    rw [hs c hmem] at hc
    simp at hc

theorem takeWhile_append_not {k : List Char} {b : Char} (X : List Char)
    (hk : ∀ c ∈ k, pyWordChar c = true) (hb : pyWordChar b = false) :
    (k ++ b :: X).takeWhile pyWordChar = k := by
  induction k with
  | nil => simp [List.takeWhile, hb]
  | cons a t ih =>
    have ha : pyWordChar a = true := hk a (by simp)
    simp only [List.cons_append, List.takeWhile, ha, List.append_eq]
    rw [ih (fun c hc => hk c (by simp [hc]))]

theorem dropWhile_cons_false {p : Char → Bool} {a : Char} (l : List Char)
    (h : p a = false) : (a :: l).dropWhile p = a :: l := by
  simp [List.dropWhile, h]

theorem dropWhile_eq_self_of_head {p : Char → Bool} {l : List Char} {a : Char}
    (ha : l.head? = some a) (h : p a = false) : l.dropWhile p = l := by
  cases l with
  | nil => simp at ha
  | cons b t =>
    simp only [List.head?_cons, Option.some.injEq] at ha
    subst ha
    exact dropWhile_cons_false t h

theorem pstrip_eq_self {s : List Char} {a b : Char}
    (hh : s.head? = some a) (ha : isPySpace a = false)
    (hl : s.getLast? = some b) (hb : isPySpace b = false) : pstrip s = s := by
  unfold pstrip
  rw [dropWhile_eq_self_of_head hh ha]
  rw [dropWhile_eq_self_of_head (by rw [List.head?_reverse]; exact hl) hb]
  exact List.reverse_reverse s

/-- The trailing `\s*(?:,)?` of one regex match applied to the text after
the closing glyph. -/
def afterPair (tail : List Char) : List Char :=
  let s5 := tail.dropWhile isPySpace
  if s5.head? = some ',' then s5.tail else s5

theorem afterPair_nil : afterPair [] = [] := rfl

theorem afterPair_comma (t : List Char) : afterPair (',' :: t) = t := by
  unfold afterPair
  rw [dropWhile_cons_false t (by decide)]
  simp

theorem matchPairAt_render (k v tail : List Char)
    (hk : k ≠ []) (hkw : ∀ c ∈ k, pyWordChar c = true)
    (hv : noOccur endQuote v) :
    matchPairAt (renderPair (k, v) ++ tail) = some ((k, v), afterPair tail) := by
  have hkE : k.isEmpty = false := by
    cases k
    · exact absurd rfl hk
    · rfl
  have hnorm : renderPair (k, v) ++ tail =
      k ++ ':' :: (startQuote ++ (v ++ (endQuote ++ tail))) := by
    simp [renderPair, List.append_assoc]
  rw [hnorm]
  unfold matchPairAt
  simp only []
  rw [takeWhile_append_not _ hkw (by decide)]
  rw [hkE]
  simp only [Bool.false_eq_true, if_false]
  rw [List.drop_left]
  rw [dropWhile_cons_false _ (by decide)]
  simp only [if_true]
  rw [dropWhile_eq_self_of_head (l := startQuote ++ (v ++ (endQuote ++ tail)))
    (a := '「') (by rw [head?_append_ne _ (by decide)]; rfl) (by decide)]
  rw [if_pos (isPre_append_self startQuote (v ++ (endQuote ++ tail)))]
  rw [List.drop_left]
  rw [show v ++ (endQuote ++ tail) = v ++ endQuote ++ tail from
    (List.append_assoc v endQuote tail).symm]
  rw [findSub_boundary (by unfold selfNoOverlap; decide) v tail hv]
  simp only []
  rw [List.append_assoc v endQuote tail]
  rw [show (v ++ (endQuote ++ tail)).take v.length = v from List.take_left v _]
  rw [show (v ++ (endQuote ++ tail)).drop (v.length + endQuote.length) = tail by
    rw [← List.append_assoc,
      show v.length + endQuote.length = (v ++ endQuote).length from
        (List.length_append v endQuote).symm,
      List.drop_left]]
  rfl

theorem findIter_nil : findIter [] = [] := rfl

theorem findIter_eq_some {s : List Char} {kv : List Char × List Char}
    {rest : List Char} (h : matchPairAt s = some (kv, rest)) :
    findIter s = kv :: findIter rest := by
  cases s with
  | nil =>
    rw [show matchPairAt [] = none from rfl] at h
    exact Option.noConfusion h
  | cons c t =>
    have hlt := matchPairAt_length_lt _ _ _ h
    show findIterF ((c :: t).length + 1) (c :: t) = _
    unfold findIterF
    dsimp only
    rw [h]
    dsimp only
    rw [findIterF_congr (c :: t).length (rest.length + 1) rest hlt (by omega)]
    rfl

theorem joinPairs_cons_cons (p q : List Char × List Char)
    (ps : List (List Char × List Char)) :
    joinPairs (p :: q :: ps) = renderPair p ++ ',' :: joinPairs (q :: ps) := rfl

theorem findIter_joinPairs :
    ∀ ps : List (List Char × List Char),
      (∀ kv ∈ ps, kv.1 ≠ [] ∧ (∀ c ∈ kv.1, pyWordChar c = true) ∧
        noOccur endQuote kv.2) →
      findIter (joinPairs ps) = ps := by
  intro ps
  induction ps with
  | nil =>
    intro _
    exact findIter_nil
  | cons p ps ih =>
    intro hall
    have hp := hall p (by simp)
    cases ps with
    | nil =>
      have hm := matchPairAt_render p.1 p.2 [] hp.1 hp.2.1 hp.2.2
      rw [List.append_nil] at hm
      show findIter (renderPair p) = [p]
      rw [findIter_eq_some (by simpa using hm), afterPair_nil, findIter_nil]
    | cons q ps2 =>
      rw [joinPairs_cons_cons]
      have hm := matchPairAt_render p.1 p.2 (',' :: joinPairs (q :: ps2))
        hp.1 hp.2.1 hp.2.2
      rw [findIter_eq_some (by simpa using hm), afterPair_comma]
      rw [ih (fun kv hkv => hall kv (by simp [hkv]))]

theorem renderPair_ne_nil (kv : List Char × List Char) : renderPair kv ≠ [] := by
  simp [renderPair]

theorem renderPair_head? (kv : List Char × List Char) (h : kv.1 ≠ []) :
    (renderPair kv).head? = kv.1.head? := by
  unfold renderPair
  exact head?_append_ne _ h

theorem renderPair_getLast? (kv : List Char × List Char) :
    (renderPair kv).getLast? = some '」' := by
  unfold renderPair
  rw [getLast?_append_ne _ (by simp)]
  rw [show (':' :: (startQuote ++ kv.2 ++ endQuote)) =
    [':'] ++ (startQuote ++ kv.2 ++ endQuote) from rfl]
  rw [getLast?_append_ne _ (by simp [startQuote])]
  rw [getLast?_append_ne _ (by decide)]
  rfl

theorem joinPairs_cons_ne_nil (p : List Char × List Char)
    (ps : List (List Char × List Char)) : joinPairs (p :: ps) ≠ [] := by
  cases ps with
  | nil => exact renderPair_ne_nil p
  | cons q ps2 =>
    rw [joinPairs_cons_cons]
    simp

theorem joinPairs_cons_head? (p : List Char × List Char)
    (ps : List (List Char × List Char)) (h : p.1 ≠ []) :
    (joinPairs (p :: ps)).head? = p.1.head? := by
  cases ps with
  | nil => exact renderPair_head? p h
  | cons q ps2 =>
    rw [joinPairs_cons_cons]
    rw [head?_append_ne _ (renderPair_ne_nil p)]
    exact renderPair_head? p h

theorem joinPairs_getLast? :
    ∀ (ps : List (List Char × List Char)) (p : List Char × List Char),
      (joinPairs (p :: ps)).getLast? = some '」' := by
  intro ps
  induction ps with
  | nil =>
    intro p
    exact renderPair_getLast? p
  | cons q ps2 ih =>
    intro p
    rw [joinPairs_cons_cons]
    rw [getLast?_append_ne _ (by simp)]
    rw [show (',' :: joinPairs (q :: ps2)) = [','] ++ joinPairs (q :: ps2) from rfl]
    rw [getLast?_append_ne _ (joinPairs_cons_ne_nil q ps2)]
    exact ih q

theorem noOccur_endMarker_renderPair (kv : List Char × List Char)
    (hkw : ∀ c ∈ kv.1, pyWordChar c = true)
    (hv : noOccur endMarker kv.2) : noOccur endMarker (renderPair kv) := by
  have h1 : noOccur endMarker (kv.2 ++ endQuote) :=
    noOccur_append_right hv (noOccur_of_short (by decide))
      (show endQuote.head? = some '「' from rfl)
      (by decide)
  have h2 : noOccur endMarker ((':' :: startQuote) ++ (kv.2 ++ endQuote)) :=
    noOccur_append_left (noOccur_of_short (by decide)) h1
      (show (':' :: startQuote).getLast? = some '」' by decide)
      (by decide)
  have h3 : noOccur endMarker (kv.1 ++ ((':' :: startQuote) ++ (kv.2 ++ endQuote))) :=
    noOccur_append_right (noOccur_word rfl (by decide) hkw) h2
      (show ((':' :: startQuote) ++ (kv.2 ++ endQuote)).head? = some ':' from rfl)
      (by decide)
  have heq : renderPair kv = kv.1 ++ ((':' :: startQuote) ++ (kv.2 ++ endQuote)) := by
    simp [renderPair, List.append_assoc]
  rw [heq]
  exact h3

theorem noOccur_endMarker_joinPairs :
    ∀ ps : List (List Char × List Char),
      (∀ kv ∈ ps, (∀ c ∈ kv.1, pyWordChar c = true) ∧ noOccur endMarker kv.2) →
      noOccur endMarker (joinPairs ps) := by
  intro ps
  induction ps with
  | nil =>
    intro _
    exact noOccur_of_short (by decide)
  | cons p ps ih =>
    intro hall
    have hp := hall p (by simp)
    cases ps with
    | nil => exact noOccur_endMarker_renderPair p hp.1 hp.2
    | cons q ps2 =>
      rw [joinPairs_cons_cons]
      refine noOccur_append_right (noOccur_endMarker_renderPair p hp.1 hp.2)
        ?_ (show (',' :: joinPairs (q :: ps2)).head? = some ',' from rfl)
        (by decide)
      rw [show (',' :: joinPairs (q :: ps2)) = [','] ++ joinPairs (q :: ps2) from rfl]
      exact noOccur_append_left (noOccur_of_short (by decide))
        (ih (fun kv hkv => hall kv (by simp [hkv])))
        (show ([','] : List Char).getLast? = some ',' from rfl)
        (by decide)

theorem dictInsert_not_mem {m : List (List Char × List Char)} {k v : List Char}
    (h : ∀ kw ∈ m, kw.1 ≠ k) : dictInsert m k v = m ++ [(k, v)] := by
  unfold dictInsert
  rw [if_neg]
  intro hany
  rw [List.any_eq_true] at hany
  rcases hany with ⟨kw, hkw, hk⟩
  rw [decide_eq_true_eq] at hk
  exact h kw hkw hk

/-- The request lists actually produced by parsing rendered blocks: the
parser strips every value (`value = match.group(2).strip()`). -/
def stripRequest (r : VcpRequest) : VcpRequest :=
  ⟨pstrip r.tool_name, r.args.map (fun kv => (kv.1, pstrip kv.2))⟩

theorem foldl_buildStep_args :
    ∀ (args : List (List Char × List Char)) (n : List Char)
      (m : List (List Char × List Char)),
      (∀ kv ∈ args, kv.1 ≠ toolNameKey) →
      (∀ kv ∈ args, ∀ kw ∈ m, kw.1 ≠ kv.1) →
      (args.map Prod.fst).Nodup →
      args.foldl buildStep (some n, m) =
        (some n, m ++ args.map (fun kv => (kv.1, pstrip kv.2))) := by
  intro args
  induction args with
  | nil =>
    intro n m _ _ _
    simp
  | cons kv args ih =>
    intro n m hval hm hnd
    have hkv := hval kv (by simp)
    simp only [List.foldl_cons]
    have hstep : buildStep (some n, m) kv = (some n, m ++ [(kv.1, pstrip kv.2)]) := by
      unfold buildStep
      simp only []
      rw [if_neg hkv, dictInsert_not_mem (hm kv (by simp))]
    rw [hstep]
    have hnd2 : (args.map Prod.fst).Nodup := (List.nodup_cons.mp hnd).2
    have hnotin : kv.1 ∉ args.map Prod.fst := (List.nodup_cons.mp hnd).1
    rw [ih n (m ++ [(kv.1, pstrip kv.2)]) (fun kv2 h2 => hval kv2 (by simp [h2]))
      (by
        intro kv2 h2 kw hkw
        rcases List.mem_append.mp hkw with hkw | hkw
        · exact hm kv2 (by simp [h2]) kw hkw
        · simp only [List.mem_singleton] at hkw
          subst hkw
          intro hcon
          exact hnotin (hcon ▸ List.mem_map_of_mem Prod.fst h2))
      hnd2]
    simp

theorem buildFromPairs_cons (name : List Char) (args : List (List Char × List Char))
    (hne : pstrip name ≠ [])
    (hval : ∀ kv ∈ args, kv.1 ≠ toolNameKey)
    (hnd : (args.map Prod.fst).Nodup) :
    buildFromPairs ((toolNameKey, name) :: args) =
      some ⟨pstrip name, args.map (fun kv => (kv.1, pstrip kv.2))⟩ := by
  unfold buildFromPairs
  simp only [List.foldl_cons]
  have h1 : buildStep (none, []) (toolNameKey, name) = (some (pstrip name), []) := by
    unfold buildStep
    simp only [if_true]
  rw [h1, foldl_buildStep_args args (pstrip name) [] hval (by simp) hnd]
  simp [hne]

/-- If no pair carries the reserved key, the fold never sets `tool_name`. -/
theorem foldl_buildStep_no_toolName :
    ∀ (pairs : List (List Char × List Char)) (m : List (List Char × List Char)),
      (∀ kv ∈ pairs, kv.1 ≠ toolNameKey) →
      (pairs.foldl buildStep (none, m)).1 = none := by
  intro pairs
  induction pairs with
  | nil => intro m _; rfl
  | cons kv pairs ih =>
    intro m hk
    simp only [List.foldl_cons]
    have hstep : buildStep (none, m) kv =
        (none, dictInsert m kv.1 (pstrip kv.2)) := by
      unfold buildStep
      simp only []
      rw [if_neg (hk kv (by simp))]
    rw [hstep]
    exact ih _ (fun kv2 h2 => hk kv2 (by simp [h2]))

theorem buildFromPairs_no_toolName (pairs : List (List Char × List Char))
    (hk : ∀ kv ∈ pairs, kv.1 ≠ toolNameKey) :
    buildFromPairs pairs = none := by
  unfold buildFromPairs
  have := foldl_buildStep_no_toolName pairs [] hk
  rcases hT : pairs.foldl buildStep (none, []) with ⟨tn, params⟩
  rw [hT] at this
  simp only [] at this
  subst this
  rfl

/-! Validity conditions under which the spec-modelled rendering round-trips
through the parser. -/

/-- A usable argument key: nonempty, made of word characters. -/
@[reducible] def wordKey (k : List Char) : Prop :=
  k ≠ [] ∧ ∀ c ∈ k, pyWordChar c = true

/-- The side condition stated by the claim: the value contains neither the
end marker nor the value-quote glyphs. -/
@[reducible] def cleanValue (v : List Char) : Prop :=
  containsSub startQuote v = false ∧ containsSub endQuote v = false ∧
    containsSub endMarker v = false

/-- The value survives the `.strip()` the parser applies. -/
@[reducible] def trimmedValue (v : List Char) : Prop :=
  pstrip v = v

/-- Validity of one argument pair. -/
@[reducible] def validArg (kv : List Char × List Char) : Prop :=
  wordKey kv.1 ∧ kv.1 ≠ toolNameKey ∧ cleanValue kv.2 ∧ trimmedValue kv.2

/-- Validity of a whole request for round-tripping. -/
@[reducible] def validRequest (r : VcpRequest) : Prop :=
  r.tool_name ≠ [] ∧ cleanValue r.tool_name ∧ trimmedValue r.tool_name ∧
    (∀ kv ∈ r.args, validArg kv) ∧ (r.args.map Prod.fst).Nodup

/-- Weaker conditions under which a rendered block still parses as one
request, with every value stripped: surrounding whitespace in values is
allowed here (the parser removes it). -/
@[reducible] def renderableRequest (r : VcpRequest) : Prop :=
  pstrip r.tool_name ≠ [] ∧ cleanValue r.tool_name ∧
    (∀ kv ∈ r.args, wordKey kv.1 ∧ kv.1 ≠ toolNameKey ∧ cleanValue kv.2) ∧
    (r.args.map Prod.fst).Nodup

theorem validRequest_renderable {r : VcpRequest} (hr : validRequest r) :
    renderableRequest r := by
  rcases hr with ⟨hne, hclean, htrim, hargs, hnd⟩
  refine ⟨?_, hclean, ?_, hnd⟩
  · rw [htrim]
    exact hne
  · intro kv hkv
    have := hargs kv hkv
    exact ⟨this.1, this.2.1, this.2.2.1⟩

theorem map_pstrip_eq_self {args : List (List Char × List Char)}
    (h : ∀ kv ∈ args, pstrip kv.2 = kv.2) :
    args.map (fun kv => (kv.1, pstrip kv.2)) = args := by
  induction args with
  | nil => rfl
  | cons kv t ih =>
    simp only [List.map_cons]
    rw [h kv (by simp), ih (fun kv2 h2 => h kv2 (by simp [h2]))]

theorem stripRequest_eq_self {r : VcpRequest} (hr : validRequest r) :
    stripRequest r = r := by
  rcases hr with ⟨_, _, htrim, hargs, _⟩
  unfold stripRequest
  rw [htrim, map_pstrip_eq_self (fun kv hkv => (hargs kv hkv).2.2.2)]

theorem cleanValue_noOccur_endQuote {v : List Char} (h : cleanValue v) :
    noOccur endQuote v :=
  containsSub_eq_false_iff.mp h.2.1

theorem cleanValue_noOccur_endMarker {v : List Char} (h : cleanValue v) :
    noOccur endMarker v :=
  containsSub_eq_false_iff.mp h.2.2

theorem parseLoopF_noStart {content : List Char} (fuel : Nat)
    (h : findSub startMarker content = none) :
    parseLoopF (fuel + 1) content = [] := by
  unfold parseLoopF
  split
  · rfl
  next i hs =>
    rw [h] at hs
    exact Option.noConfusion hs

theorem parseMultiple_noStart {content : List Char}
    (h : findSub startMarker content = none) :
    parseMultipleVcpRequests content = [] :=
  parseLoopF_noStart content.length h

theorem parseMultiple_noEnd {content : List Char} {i : Nat}
    (h1 : findSub startMarker content = some i)
    (h2 : findSub endMarker (content.drop i) = none) :
    parseMultipleVcpRequests content = [] := by
  unfold parseMultipleVcpRequests parseLoopF
  rw [h1]
  dsimp only
  rw [h2]

theorem parseLoopF_step {content : List Char} {i j : Nat} (fuel : Nat)
    (h1 : findSub startMarker content = some i)
    (h2 : findSub endMarker (content.drop i) = some j) :
    parseLoopF (fuel + 1) content =
      (match buildFromPairs (findIter (pstrip (((content.drop i).take j).drop
        startMarker.length))) with
        | some r => [r]
        | none => []) ++
        parseLoopF fuel ((content.drop i).drop (j + endMarker.length)) := by
  conv_lhs => unfold parseLoopF
  rw [h1]
  dsimp only
  rw [h2]

theorem parseMultiple_step {content : List Char} {i j : Nat}
    (h1 : findSub startMarker content = some i)
    (h2 : findSub endMarker (content.drop i) = some j) :
    parseMultipleVcpRequests content =
      (match buildFromPairs (findIter (pstrip (((content.drop i).take j).drop
        startMarker.length))) with
        | some r => [r]
        | none => []) ++
        parseMultipleVcpRequests ((content.drop i).drop (j + endMarker.length)) := by
  unfold parseMultipleVcpRequests
  rw [parseLoopF_step content.length h1 h2]
  rw [parseLoopF_congr content.length
    (((content.drop i).drop (j + endMarker.length)).length + 1) _
    (parseLoopF_rest_lt h1 j) (by omega)]

theorem parseVcp_none_noStart {content : List Char}
    (h : findSub startMarker content = none) :
    parseVcpRequest content = none := by
  unfold parseVcpRequest
  rw [h]

theorem parseVcp_none_noEnd {content : List Char} {i : Nat}
    (h1 : findSub startMarker content = some i)
    (h2 : findSub endMarker (content.drop i) = none) :
    parseVcpRequest content = none := by
  unfold parseVcpRequest
  split
  · rfl
  next i2 hs =>
    rw [h1] at hs
    injection hs with hi
    subst hi
    split
    · rfl
    next j2 he =>
      rw [h2] at he
      exact Option.noConfusion he

theorem parseVcp_step {content : List Char} {i j : Nat}
    (h1 : findSub startMarker content = some i)
    (h2 : findSub endMarker (content.drop i) = some j) :
    parseVcpRequest content =
      buildFromPairs (findIter (pstrip (((content.drop i).take j).drop
        startMarker.length))) := by
  unfold parseVcpRequest
  split
  next hs =>
    rw [h1] at hs
    exact Option.noConfusion hs
  next i2 hs =>
    rw [h1] at hs
    injection hs with hi
    subst hi
    split
    next he =>
      rw [h2] at he
      exact Option.noConfusion he
    next j2 he =>
      rw [h2] at he
      injection he with hj
      subst hj
      rfl

/-- Shared computation for one rendered block sitting at the front of the
remaining text: the positions found by the parser and the extracted,
stripped block. -/
theorem render_block_facts (r : VcpRequest) (rest : List Char)
    (hr : renderableRequest r) :
    findSub startMarker (renderRequest r ++ rest) = some 0 ∧
    findSub endMarker (renderRequest r ++ rest) =
      some (startMarker ++ joinPairs ((toolNameKey, r.tool_name) :: r.args)).length ∧
    pstrip (((renderRequest r ++ rest).take
        (startMarker ++ joinPairs ((toolNameKey, r.tool_name) :: r.args)).length).drop
        startMarker.length) =
      joinPairs ((toolNameKey, r.tool_name) :: r.args) ∧
    (renderRequest r ++ rest).drop
        ((startMarker ++ joinPairs ((toolNameKey, r.tool_name) :: r.args)).length +
          endMarker.length) = rest := by
  rcases hr with ⟨hne, hclean, hargs, hnd⟩
  set body := joinPairs ((toolNameKey, r.tool_name) :: r.args) with hbody
  have hnorm : renderRequest r ++ rest =
      (startMarker ++ body) ++ (endMarker ++ rest) := by
    simp [renderRequest, List.append_assoc]
  have hpairs : ∀ kv ∈ (toolNameKey, r.tool_name) :: r.args,
      (∀ c ∈ kv.1, pyWordChar c = true) ∧ noOccur endMarker kv.2 := by
    intro kv hkv
    rcases List.mem_cons.mp hkv with hkv | hkv
    · subst hkv
      refine ⟨?_, cleanValue_noOccur_endMarker hclean⟩
      show ∀ c ∈ toolNameKey, pyWordChar c = true
      decide
    · have := hargs kv hkv
      exact ⟨this.1.2, cleanValue_noOccur_endMarker this.2.2⟩
  have hbodyHead : body.head? = some 't' := by
    rw [hbody, joinPairs_cons_head? _ _ (show toolNameKey ≠ [] by decide)]
    rfl
  have hnoB : noOccur endMarker (startMarker ++ body) := by
    refine noOccur_append_right (noOccur_of_short (by decide))
      (noOccur_endMarker_joinPairs _ hpairs) hbodyHead ?_
    decide
  have hstart : findSub startMarker (renderRequest r ++ rest) = some 0 := by
    rw [hnorm, List.append_assoc]
    exact findSub_of_isPre (isPre_append_self _ _)
  have hend : findSub endMarker (renderRequest r ++ rest) =
      some (startMarker ++ body).length := by
    rw [hnorm, show (startMarker ++ body) ++ (endMarker ++ rest) =
      (startMarker ++ body) ++ endMarker ++ rest from
        (List.append_assoc _ _ _).symm]
    exact findSub_boundary (by unfold selfNoOverlap; decide) _ _ hnoB
  have hblock : pstrip (((renderRequest r ++ rest).take
      (startMarker ++ body).length).drop startMarker.length) = body := by
    rw [hnorm, List.take_left, List.drop_left]
    exact pstrip_eq_self hbodyHead (by decide)
      (by rw [hbody]; exact joinPairs_getLast? _ _) (by decide)
  have hrest : (renderRequest r ++ rest).drop
      ((startMarker ++ body).length + endMarker.length) = rest := by
    rw [hnorm, show (startMarker ++ body) ++ (endMarker ++ rest) =
      ((startMarker ++ body) ++ endMarker) ++ rest from by
        simp [List.append_assoc]]
    rw [show (startMarker ++ body).length + endMarker.length =
      ((startMarker ++ body) ++ endMarker).length from
        (List.length_append _ _).symm]
    exact List.drop_left _ _
  exact ⟨hstart, hend, hblock, hrest⟩

theorem buildFromPairs_render (r : VcpRequest) (hr : renderableRequest r) :
    buildFromPairs (findIter (joinPairs ((toolNameKey, r.tool_name) :: r.args))) =
      some (stripRequest r) := by
  rcases hr with ⟨hne, hclean, hargs, hnd⟩
  rw [findIter_joinPairs _ (by
    intro kv hkv
    rcases List.mem_cons.mp hkv with hkv | hkv
    · subst hkv
      refine ⟨?_, ?_, cleanValue_noOccur_endQuote hclean⟩
      · show toolNameKey ≠ []
        decide
      · show ∀ c ∈ toolNameKey, pyWordChar c = true
        decide
    · have := hargs kv hkv
      exact ⟨this.1.1, this.1.2, cleanValue_noOccur_endQuote this.2.2⟩)]
  rw [buildFromPairs_cons r.tool_name r.args hne
    (fun kv hkv => (hargs kv hkv).2.1) hnd]
  rfl

theorem parseMultiple_render_cons (r : VcpRequest) (rest : List Char)
    (hr : renderableRequest r) :
    parseMultipleVcpRequests (renderRequest r ++ rest) =
      stripRequest r :: parseMultipleVcpRequests rest := by
  rcases render_block_facts r rest hr with ⟨h1, h2, h3, h4⟩
  rw [parseMultiple_step h1 (by rw [List.drop_zero]; exact h2)]
  rw [List.drop_zero, h3, buildFromPairs_render r hr]
  rw [h4]
  rfl

theorem parseVcp_render (r : VcpRequest) (rest : List Char)
    (hr : renderableRequest r) :
    parseVcpRequest (renderRequest r ++ rest) = some (stripRequest r) := by
  rcases render_block_facts r rest hr with ⟨h1, h2, h3, _⟩
  rw [parseVcp_step h1 (by rw [List.drop_zero]; exact h2)]
  rw [List.drop_zero, h3, buildFromPairs_render r hr]

theorem parseMultiple_nil : parseMultipleVcpRequests [] = [] :=
  parseMultiple_noStart rfl

theorem parseMultiple_render (rs : List VcpRequest)
    (h : ∀ r ∈ rs, validRequest r) :
    parseMultipleVcpRequests (renderRequests rs) = rs := by
  induction rs with
  | nil => exact parseMultiple_nil
  | cons r rs ih =>
    rw [show renderRequests (r :: rs) = renderRequest r ++ renderRequests rs from rfl]
    rw [parseMultiple_render_cons r _ (validRequest_renderable (h r (by simp)))]
    rw [stripRequest_eq_self (h r (by simp))]
    rw [ih (fun r2 h2 => h r2 (by simp [h2]))]

/-! Embedding of the buffered multi-round orchestration loop of
`handle_non_streaming_response` (`server.py:1207-1294`) and of the
streaming detection of `handle_streaming_response` (`server.py:994-1137`).
The upstream model is an oracle from the outgoing message list to the next
response content; a plugin invocation is an oracle from tool name and
arguments to either a result or an exception message. -/

structure ChatMsg where
  role : List Char
  content : List Char
deriving DecidableEq, Repr

/-- One entry of `conversation_history` (`server.py:1217,1223,1246,1257`). -/
inductive HistItem
  | ai (content : List Char)
  | vcp (content : List Char)
deriving DecidableEq, Repr

/-- The formatted success message appended to `tool_results`
(`server.py:1251`). -/
def toolResultMsg (name result : List Char) : List Char :=
  "来自工具 \"".data ++ name ++ "\" 的结果:\n".data ++ result

/-- The formatted error message (`server.py:1255`). -/
def toolErrorMsg (name err : List Char) : List Char :=
  "执行插件 ".data ++ name ++ " 时发生错误：".data ++ err

/-- The history entry written when `SHOW_VCP_OUTPUT` is set
(`server.py:1248`). -/
def vcpHistMsg (name result : List Char) : List Char :=
  "工具 ".data ++ name ++ " 调用结果:\n".data ++ result

/-- Embedding of the sequential per-request tool loop
(`server.py:1236-1258`): each extracted request is executed in order; a
success is formatted via `toolResultMsg`, an exception via `toolErrorMsg`;
with `SHOW_VCP_OUTPUT` each outcome is also recorded in the history. -/
def runTools (toolExec : List Char → List (List Char × List Char) →
      Except (List Char) (List Char)) (showVcp : Bool) :
    List VcpRequest → List HistItem × List (List Char)
  | [] => ([], [])
  | req :: reqs =>
    let first :=
      match toolExec req.tool_name req.args with
      | Except.ok r =>
        ((if showVcp then [HistItem.vcp (vcpHistMsg req.tool_name r)] else []),
          [toolResultMsg req.tool_name r])
      | Except.error e =>
        ((if showVcp then [HistItem.vcp (toolErrorMsg req.tool_name e)] else []),
          [toolErrorMsg req.tool_name e])
    let later := runTools toolExec showVcp reqs
    (first.1 ++ later.1, first.2 ++ later.2)

/-- Python `sep.join(xs)`. -/
def joinSep (sep : List Char) : List (List Char) → List Char
  | [] => []
  | [x] => x
  | x :: xs => x ++ sep ++ joinSep sep xs

/-- Embedding of the `for recursion_depth in range(max_recursion)` loop
(`server.py:1221-1283`).  State: remaining rounds, the current response
content, the outgoing message list, the accumulated history, and the number
of upstream calls issued so far inside the loop.  An iteration appends the
current content to the history, parses it; with no requests it breaks;
otherwise it executes every request, appends the assistant turn and the
joined tool results to the messages, issues one upstream call and
continues. -/
def multiToolRounds (model : List ChatMsg → List Char)
    (toolExec : List Char → List (List Char × List Char) →
      Except (List Char) (List Char)) (showVcp : Bool) :
    Nat → List Char → List ChatMsg → List HistItem → Nat →
      List HistItem × List Char × Nat
  | 0, current, _msgs, hist, calls => (hist, current, calls)
  | fuel + 1, current, msgs, hist, calls =>
    let hist2 := hist ++ [HistItem.ai current]
    let reqs := parseMultipleVcpRequests current
    if reqs.isEmpty then (hist2, current, calls)
    else
      let msgs2 := msgs ++ [⟨"assistant".data, current⟩]
      let outcome := runTools toolExec showVcp reqs
      let combined := joinSep "\n\n---\n\n".data outcome.2
      let msgs3 := msgs2 ++ [⟨"user".data, combined⟩]
      multiToolRounds model toolExec showVcp fuel (model msgs3) msgs3
        (hist2 ++ outcome.1) (calls + 1)

/-- The literal bound `max_recursion = 5` (`server.py:1216`). -/
def maxRecursion : Nat := 5

/-- One history item rendered into the final answer
(`server.py:1286-1291`). -/
def histText (showVcp : Bool) : HistItem → List Char
  | HistItem.ai c => c
  | HistItem.vcp c =>
    if showVcp then
      "\n<<<[VCP_RESULT]>>>\n".data ++ c ++ "\n<<<[END_VCP_RESULT]>>>\n".data
    else []

structure NonStreamingOutcome where
  finalContent : List Char
  upstreamCalls : Nat
deriving Repr

/-- Embedding of the tool-call portion of `handle_non_streaming_response`
(`server.py:1207-1294`), with the literal `max_recursion = 5` generalized
to the parameter `maxRounds` (`handleNonStreamingToolCalls` at
`maxRecursion` is the source).  Returns the final content assembled from
the history plus the last response, and the number of upstream calls the
loop issued. -/
def handleNonStreamingToolCalls (model : List ChatMsg → List Char)
    (toolExec : List Char → List (List Char × List Char) →
      Except (List Char) (List Char)) (showVcp : Bool) (maxRounds : Nat)
    (firstContent : List Char) (origMsgs : List ChatMsg) : NonStreamingOutcome :=
  if (parseMultipleVcpRequests firstContent).isEmpty then ⟨firstContent, 0⟩
  else
    let res := multiToolRounds model toolExec showVcp maxRounds firstContent
      origMsgs [] 0
    ⟨(res.1.foldl (fun acc item => acc ++ histText showVcp item) []) ++ res.2.1,
      res.2.2⟩

/-- The two execution paths the streaming generator can enter after the
first upstream stream has been accumulated. -/
inductive StreamAction
  | codeExecution
  | toolCallDetected
deriving DecidableEq, Repr

/-- Embedding of the post-stream detection control flow of
`handle_streaming_response` (`server.py:994-1137`): the accumulated text is
first checked for python code blocks (`server.py:995`) and the
code-execution branch runs when some are present (`server.py:997-1067`);
the tool-call check (`server.py:1069-1071`) then runs UNCONDITIONALLY — the
code branch neither returns nor guards it — and its branch executes when
`parse_vcp_request` finds a request.  Each listed action stands for the
in-band marker yielded to the client plus the execution and the extra
upstream call of that branch. -/
def streamingDetectionActions (sse : List Char) : List StreamAction :=
  (if hasCodeBlocks sse then [StreamAction.codeExecution] else []) ++
    (if (parseVcpRequest sse).isSome then [StreamAction.toolCallDetected] else [])

theorem multiToolRounds_calls_le (model : List ChatMsg → List Char)
    (toolExec : List Char → List (List Char × List Char) →
      Except (List Char) (List Char)) (showVcp : Bool) :
    ∀ (fuel : Nat) (current : List Char) (msgs : List ChatMsg)
      (hist : List HistItem) (calls : Nat),
      (multiToolRounds model toolExec showVcp fuel current msgs hist calls).2.2 ≤
        calls + fuel := by
  intro fuel
  induction fuel with
  | zero => intro current msgs hist calls; exact Nat.le_refl _
  | succ fuel ih =>
    intro current msgs hist calls
    unfold multiToolRounds
    dsimp only
    split
    · show calls ≤ calls + (fuel + 1)
      omega
    · exact Nat.le_trans (ih _ _ _ _) (by omega)

/-! Embedding of the code-execution sandbox (`code_executor.py`).  The
sandbox runs model-authored python with `exec`/`eval` under captured
stdout; we embed the fragment of python the claims exercise — integer
arithmetic and `print` statements, one statement per source line. -/

/-- Arithmetic expressions of the embedded python fragment. -/
inductive PyExpr
  | intLit (n : Int)
  | add (a b : PyExpr)
deriving DecidableEq, Repr

/-- Statements of the embedded fragment; each statement is one source
line. -/
inductive PyStmt
  | printStmt (e : PyExpr)
deriving DecidableEq, Repr

def evalExpr : PyExpr → Int
  | PyExpr.intLit n => n
  | PyExpr.add a b => evalExpr a + evalExpr b

/-- Text a statement writes to the captured stdout when executed:
`print(e)` writes the decimal rendering of `e` plus a newline. -/
def stmtOutput : PyStmt → List Char
  | PyStmt.printStmt e => (toString (evalExpr e)).data ++ ['\n']

/-- Output of `exec(code, ...)` on the whole script
(`code_executor.py:213`): the statements run in order into the capture
buffer. -/
def execOutput (code : List PyStmt) : List Char :=
  code.foldl (fun acc s => acc ++ stmtOutput s) []

/-- The keyword test of `code_executor.py:222-223`: the last line is
re-evaluated unless it starts with one of the listed statement keywords
(`def`, `class`, `if`, ...).  A `print(...)` line starts with none of
them. -/
def lastLineLooksLikeExpr : PyStmt → Bool
  | PyStmt.printStmt _ => true

/-- Result dict of `execute_code` (`code_executor.py:244-250`); `result`
is the value of the trailing `eval`, `none` standing for python `None`
(`print` returns `None`). -/
structure ExecResult where
  success : Bool
  output : List Char
  error : List Char
  result : Option Int
deriving DecidableEq, Repr

/-- Embedding of `CodeExecutor.execute_code` (`code_executor.py:203-250`)
on scripts of the embedded fragment.  The script is executed with `exec`
under output capture; then — still inside the same capture — the last
nonempty line is re-evaluated with `eval` whenever it does not start with a
statement keyword (`code_executor.py:216-227`), so its side effects (such
as printing) happen a second time; the `eval` of a `print` call returns
`None`. -/
def executeCode (code : List PyStmt) : ExecResult :=
  let execOut := execOutput code
  match code.getLast? with
  | none => ⟨true, execOut, [], none⟩
  | some last =>
    if lastLineLooksLikeExpr last then ⟨true, execOut ++ stmtOutput last, [], none⟩
    else ⟨true, execOut, [], none⟩

/-- Embedding of `execute_ai_code` via `execute_code_with_timeout`
(`code_executor.py:269-325`): scripts of the embedded fragment always
terminate, so the `asyncio.wait_for` wall-clock budget (in seconds) never
fires and the `execute_code` result is returned unchanged. -/
def executeAiCode (code : List PyStmt) (_timeoutSeconds : Nat) : ExecResult :=
  executeCode code

/-- The keys of the restricted `__builtins__` dict installed by
`CodeExecutor._create_safe_globals` (`code_executor.py:114-142`). -/
def safeBuiltinsNames : List (List Char) :=
  ["print".data, "len".data, "range".data, "str".data, "int".data,
   "float".data, "bool".data, "list".data, "dict".data, "tuple".data,
   "set".data, "min".data, "max".data, "sum".data, "abs".data,
   "round".data, "enumerate".data, "zip".data, "sorted".data, "map".data,
   "filter".data, "any".data, "all".data, "isinstance".data, "type".data,
   "help".data, "dir".data]

/-- The top-level names of the execution namespace built by
`_create_safe_globals` (`code_executor.py:112-158`), before the dynamic
per-tool module additions of lines 160-172, which only add further entries
named after tool directories. -/
def executionGlobalNames : List (List Char) :=
  ["__builtins__".data, "asyncio".data, "json".data, "re".data, "os".data,
   "pathlib".data, "datetime".data, "tools".data, "call_mcp_tool".data,
   "list_available_tools".data, "search_tools".data]

/-- Modelled from the spec (section 4.9): names denoting python
filesystem, network or process-spawning primitives in the sense of the
claim — the `os` module (file operations plus process spawning via
`os.system`/`os.popen`), the `pathlib` module (file operations), the
`open` builtin, and the `subprocess`/`socket`/`shutil` modules. -/
def filesystemNetworkProcessNames : List (List Char) :=
  ["open".data, "os".data, "pathlib".data, "subprocess".data,
   "socket".data, "shutil".data]

/-! Embedding of the plugin manager (`plugin_manager.py`). -/

mutual
/-- Python json values as produced by `json.loads`. -/
inductive PyJson
  | null
  | bool (b : Bool)
  | num (n : Int)
  | str (s : List Char)
  | arr (xs : PyJsonList)
  | obj (fields : PyJsonFields)
deriving DecidableEq, Repr
/-- Lists of json values. -/
inductive PyJsonList
  | nil
  | cons (x : PyJson) (xs : PyJsonList)
deriving DecidableEq, Repr
/-- Ordered fields of a json object (keys unique). -/
inductive PyJsonFields
  | nil
  | cons (k : List Char) (v : PyJson) (rest : PyJsonFields)
deriving DecidableEq, Repr
end

/-- Python dict `.get` on a json object. -/
def jget : PyJsonFields → List Char → Option PyJson
  | PyJsonFields.nil, _ => none
  | PyJsonFields.cons k v rest, key => if k = key then some v else jget rest key

/-- Python type name of a json value, as spelled inside the
`AttributeError` raised by calling `.get` on it when it is not a dict. -/
def pyTypeName : PyJson → List Char
  | PyJson.null => "NoneType".data
  | PyJson.bool _ => "bool".data
  | PyJson.num _ => "int".data
  | PyJson.str _ => "str".data
  | PyJson.arr _ => "list".data
  | PyJson.obj _ => "dict".data

/-- The envelope test `parsed_output.get('status') in ['success', 'error']`
(`plugin_manager.py:542`). -/
def statusIsValid (fields : PyJsonFields) : Bool :=
  match jget fields "status".data with
  | some (PyJson.str s) => s = "success".data || s = "error".data
  | _ => false

/-- Outcome of one synchronous plugin execution: the returned envelope, or
the message of the raised exception. -/
inductive PluginExecOutcome
  | ok (envelope : PyJson)
  | err (msg : List Char)
deriving Repr

/-- The synthesized non-zero-exit failure message
(`plugin_manager.py:549-554`): exit code plus stdout and stderr, each
truncated to 200 characters and each included only when nonempty. -/
def synthExitMsg (name : List Char) (returncode : Int)
    (output errOut : List Char) : List Char :=
  "Plugin '".data ++ name ++ "' exited with code ".data ++
    (toString returncode).data ++
    (if output ≠ [] then ". Stdout: ".data ++ output.take 200 else []) ++
    (if errOut ≠ [] then ". Stderr: ".data ++ errOut.take 200 else [])

/-- The wrapper added by the outer exception handler
(`plugin_manager.py:567-568`). -/
def wrapExecError (name msg : List Char) : List Char :=
  "Failed to execute plugin '".data ++ name ++ "': ".data ++ msg

/-- The `AttributeError` text python produces for `.get` on a json value
that is not a dict. -/
def attrErrorMsg (j : PyJson) : List Char :=
  "'".data ++ pyTypeName j ++ "' object has no attribute 'get'".data

/-- The non-envelope fallback of `execute_plugin`
(`plugin_manager.py:548-561`): a non-zero exit raises the synthesized
message — wrapped by the outer handler — while a zero exit wraps the raw
stdout into a success envelope. -/
def nonEnvelopeFallback (name : List Char) (returncode : Int)
    (output errOut : List Char) : PluginExecOutcome :=
  if returncode ≠ 0 then
    PluginExecOutcome.err (wrapExecError name (synthExitMsg name returncode output errOut))
  else
    PluginExecOutcome.ok (PyJson.obj (PyJsonFields.cons "status".data
      (PyJson.str "success".data) (PyJsonFields.cons "result".data
        (PyJson.str output) PyJsonFields.nil)))

/-- Embedding of the output-handling tail of `PluginManager.execute_plugin`
(`plugin_manager.py:536-568`) after the subprocess has been reaped.
Parameters: plugin name, the result of `json.loads` on the stripped stdout
(`none` for a `JSONDecodeError`), the exit code, and the stripped
stdout/stderr texts.  A parsed json object whose `status` is
`success`/`error` is returned as-is regardless of the exit code
(`plugin_manager.py:541-543`); a parsed non-object raises an
`AttributeError` at `.get`, caught and wrapped by the outer handler;
anything else goes through `nonEnvelopeFallback`. -/
def executePluginOutput (name : List Char) (parsed : Option PyJson)
    (returncode : Int) (output errOut : List Char) : PluginExecOutcome :=
  match parsed with
  | some (PyJson.obj fields) =>
    if statusIsValid fields then PluginExecOutcome.ok (PyJson.obj fields)
    else nonEnvelopeFallback name returncode output errOut
  | some j => PluginExecOutcome.err (wrapExecError name (attrErrorMsg j))
  | none => nonEnvelopeFallback name returncode output errOut

/-! Static placeholder cache updates (`plugin_manager.py:148-180`). -/

/-- Assoc-list read of the placeholder cache (`dict.get`). -/
def cacheGet : List (List Char × List Char) → List Char → Option (List Char)
  | [], _ => none
  | kv :: t, key => if kv.1 = key then some kv.2 else cacheGet t key

/-- Python truthiness of `dict.get`: false for `None` and for the empty
string. -/
def truthyOpt : Option (List Char) → Bool
  | none => false
  | some s => !s.isEmpty

/-- The refresh-error marker (`plugin_manager.py:171`): the exception text
truncated to 100 characters. -/
def errorMarker (pluginName errStr : List Char) : List Char :=
  "[Error updating ".data ++ pluginName ++ ": ".data ++ errStr.take 100 ++
    "...]".data

/-- The marker written when a plugin has never produced output
(`plugin_manager.py:179-180`). -/
def unavailableMarker (pluginName : List Char) : List Char :=
  "[".data ++ pluginName ++ " data currently unavailable]".data

/-- One placeholder update of `_update_static_plugin_value`
(`plugin_manager.py:162-180`).  `execResult` is the outcome of
`_execute_static_plugin_command`: `Except.error e` when it raised (then
`new_value` is `None` and `error` is bound), `Except.ok v` on success.
A success with nonblank output overwrites with the stripped output; a
failure writes the error marker only when the cached value is falsy
(missing or empty) or itself starts with `"[Error"`; a success with blank
output writes the unavailable marker only when the key is absent. -/
def updatePlaceholder (pluginName : List Char)
    (execResult : Except (List Char) (List Char))
    (cache : List (List Char × List Char)) (key : List Char) :
    List (List Char × List Char) :=
  let current := cacheGet cache key
  match execResult with
  | Except.ok v =>
    if (pstrip v).isEmpty = false then dictInsert cache key (pstrip v)
    else if cache.any (fun kv => kv.1 = key) then cache
    else dictInsert cache key (unavailableMarker pluginName)
  | Except.error e =>
    if truthyOpt current = false || isPre "[Error".data (current.getD []) then
      dictInsert cache key (errorMarker pluginName e)
    else cache

/-- The placeholder phase of `_update_static_plugin_value`
(`plugin_manager.py:148-180`), folded over the manifest placeholder
list. -/
def updateStaticPluginValue (pluginName : List Char)
    (placeholders : List (List Char))
    (execResult : Except (List Char) (List Char))
    (cache : List (List Char × List Char)) : List (List Char × List Char) :=
  placeholders.foldl (fun c key => updatePlaceholder pluginName execResult c key)
    cache

/-! Plugin discovery (`plugin_manager.py:253-310`). -/

/-- What one plugin folder contributes to the scan: no descriptor file, a
descriptor that is not valid json, or a parsed json-object manifest plus
an optional plugin-specific `.env` table. -/
inductive FolderEntry
  | noManifest
  | badJson
  | manifest (fields : PyJsonFields) (env : Option PyJsonFields)
deriving Repr

/-- The required-fields test of `plugin_manager.py:276-279`. -/
def requiredFieldsPresent (fields : PyJsonFields) : Bool :=
  (jget fields "name".data).isSome && (jget fields "pluginType".data).isSome &&
    (jget fields "entryPoint".data).isSome

/-- Python dict assignment on a json object (`manifest['basePath'] = ...`,
`manifest['pluginSpecificEnvConfig'] = ...`). -/
def objSet : PyJsonFields → List Char → PyJson → PyJsonFields
  | PyJsonFields.nil, key, v => PyJsonFields.cons key v PyJsonFields.nil
  | PyJsonFields.cons k w rest, key, v =>
    if k = key then PyJsonFields.cons k v rest
    else PyJsonFields.cons k w (objSet rest key v)

/-- The manifest as stored in the registry (`plugin_manager.py:287-300`):
`basePath` set to the folder path, and the `.env` table added as
`pluginSpecificEnvConfig` when present. -/
def storeManifest (path : List Char) (fields : PyJsonFields)
    (env : Option PyJsonFields) : PyJsonFields :=
  let f1 := objSet fields "basePath".data (PyJson.str path)
  match env with
  | some e => objSet f1 "pluginSpecificEnvConfig".data (PyJson.obj e)
  | none => f1

/-- Registry read (`self.plugins.get(name)` / `name in self.plugins`). -/
def regGet : List (PyJson × PyJsonFields) → PyJson → Option PyJsonFields
  | [], _ => none
  | kv :: t, n => if kv.1 = n then some kv.2 else regGet t n

/-- One folder of the discovery loop (`plugin_manager.py:264-310`): skip a
missing or unparseable descriptor, reject a manifest missing a required
field, skip a duplicate `name`, otherwise store the manifest keyed by its
`name` value. -/
def loadStep (reg : List (PyJson × PyJsonFields))
    (folder : List Char × FolderEntry) : List (PyJson × PyJsonFields) :=
  match folder.2 with
  | FolderEntry.noManifest => reg
  | FolderEntry.badJson => reg
  | FolderEntry.manifest fields env =>
    if requiredFieldsPresent fields then
      match jget fields "name".data with
      | some name =>
        if (regGet reg name).isSome then reg
        else reg ++ [(name, storeManifest folder.1 fields env)]
      | none => reg
    else reg

/-- Embedding of `PluginManager.load_plugins` (`plugin_manager.py:253-310`)
over the scanned folder list (path plus descriptor outcome); the registry
starts empty (`self.plugins.clear()`). -/
def loadPlugins (folders : List (List Char × FolderEntry)) :
    List (PyJson × PyJsonFields) :=
  folders.foldl loadStep []

/-- The first well-formed manifest with a given name in the folder list,
as stored; the specification of what discovery keeps. -/
def firstValidManifest : List (List Char × FolderEntry) → PyJson →
    Option PyJsonFields
  | [], _ => none
  | folder :: rest, n =>
    match folder.2 with
    | FolderEntry.manifest fields env =>
      if requiredFieldsPresent fields then
        match jget fields "name".data with
        | some name =>
          if name = n then some (storeManifest folder.1 fields env)
          else firstValidManifest rest n
        | none => firstValidManifest rest n
      else firstValidManifest rest n
    | _ => firstValidManifest rest n

/-! Helper lemmas about the placeholder cache and the registry. -/

theorem cacheGet_map_set_ne {c : List (List Char × List Char)} {k v key : List Char}
    (h : key ≠ k) :
    cacheGet (c.map (fun kv => if kv.1 = k then (k, v) else kv)) key =
      cacheGet c key := by
  induction c with
  | nil => rfl
  | cons kv t ih =>
    simp only [List.map_cons]
    by_cases hkv : kv.1 = k
    · rw [if_pos hkv]
      unfold cacheGet
      rw [if_neg (fun hc => h hc.symm), if_neg (by rw [hkv]; exact fun hc => h hc.symm)]
      exact ih
    · rw [if_neg hkv]
      unfold cacheGet
      by_cases hkey : kv.1 = key
      · rw [if_pos hkey, if_pos hkey]
      · rw [if_neg hkey, if_neg hkey]
        exact ih

theorem cacheGet_append_single_ne {c : List (List Char × List Char)}
    {k v key : List Char} (h : key ≠ k) :
    cacheGet (c ++ [(k, v)]) key = cacheGet c key := by
  induction c with
  | nil =>
    unfold cacheGet
    simp only [List.nil_append]
    rw [if_neg (fun hc => h hc.symm)]
    rfl
  | cons kv t ih =>
    unfold cacheGet
    simp only [List.cons_append]
    by_cases hkey : kv.1 = key
    · rw [if_pos hkey, if_pos hkey]
    · rw [if_neg hkey, if_neg hkey]
      exact ih

theorem cacheGet_dictInsert_ne {c : List (List Char × List Char)}
    {k v key : List Char} (h : key ≠ k) :
    cacheGet (dictInsert c k v) key = cacheGet c key := by
  unfold dictInsert
  split
  · exact cacheGet_map_set_ne h
  · exact cacheGet_append_single_ne h

theorem updatePlaceholder_error_keeps {pluginName e key v : List Char}
    {cache : List (List Char × List Char)}
    (hv : cacheGet cache key = some v) (hne : v ≠ [])
    (hmark : isPre "[Error".data v = false) (ph : List Char) :
    cacheGet (updatePlaceholder pluginName (Except.error e) cache ph) key =
      some v := by
  unfold updatePlaceholder
  dsimp only
  by_cases hp : ph = key
  · subst hp
    rw [hv]
    have htr : truthyOpt (some v) = true := by
      unfold truthyOpt
      cases v
      · exact absurd rfl hne
      · rfl
    rw [if_neg (by
      rw [htr]
      simp only [Option.getD_some, hmark]
      simp)]
    exact hv
  · split
    · exact (cacheGet_dictInsert_ne (fun hc => hp hc.symm)).trans hv
    · exact hv

theorem regGet_append_single (reg : List (PyJson × PyJsonFields)) (name : PyJson)
    (m : PyJsonFields) (n : PyJson) :
    regGet (reg ++ [(name, m)]) n =
      match regGet reg n with
      | some v => some v
      | none => if name = n then some m else none := by
  induction reg with
  | nil =>
    unfold regGet
    simp only [List.nil_append]
    by_cases h : name = n
    · rw [if_pos h, if_pos h]
    · rw [if_neg h, if_neg h]
      rfl
  | cons kv t ih =>
    unfold regGet
    simp only [List.cons_append]
    by_cases h : kv.1 = n
    · rw [if_pos h, if_pos h]
    · rw [if_neg h, if_neg h]
      exact ih

theorem regGet_none_not_mem {reg : List (PyJson × PyJsonFields)} {n : PyJson}
    (h : regGet reg n = none) : n ∉ reg.map Prod.fst := by
  induction reg with
  | nil => simp
  | cons kv t ih =>
    unfold regGet at h
    by_cases hk : kv.1 = n
    · rw [if_pos hk] at h
      exact Option.noConfusion h
    · rw [if_neg hk] at h
      simp only [List.map_cons, List.mem_cons]
      intro hc
      rcases hc with hc | hc
      · exact hk hc.symm
      · exact ih h hc

theorem foldl_loadStep_regGet :
    ∀ (folders : List (List Char × FolderEntry))
      (acc : List (PyJson × PyJsonFields)) (n : PyJson),
      regGet (folders.foldl loadStep acc) n =
        match regGet acc n with
        | some v => some v
        | none => firstValidManifest folders n := by
  intro folders
  induction folders with
  | nil =>
    intro acc n
    simp only [List.foldl_nil, firstValidManifest]
    rcases regGet acc n with _ | v
    · rfl
    · rfl
  | cons folder rest ih =>
    intro acc n
    simp only [List.foldl_cons]
    rw [ih]
    rcases hf : folder.2 with _ | _ | ⟨fields, env⟩
    · simp only [loadStep, firstValidManifest, hf]
    · simp only [loadStep, firstValidManifest, hf]
    · simp only [loadStep, firstValidManifest, hf]
      by_cases hreq : requiredFieldsPresent fields
      · simp only [hreq, if_true]
        rcases hname : jget fields "name".data with _ | name
        · rfl
        · simp only []
          by_cases hhas : (regGet acc name).isSome
          · simp only [hhas, if_true]
            by_cases heq : name = n
            · subst heq
              rcases hacc : regGet acc name with _ | v
              · rw [hacc] at hhas
                exact absurd hhas (by simp)
              · simp [hacc]
            · simp only [heq, if_false]
          · simp only [Bool.not_eq_true] at hhas
            simp only [hhas, Bool.false_eq_true, if_false]
            rw [regGet_append_single]
            rcases hacc : regGet acc n with _ | v
            · simp only []
              by_cases heq : name = n
              · simp [heq]
              · simp [heq]
            · rfl
      · simp only [Bool.not_eq_true] at hreq
        simp only [hreq, Bool.false_eq_true, if_false]

theorem foldl_loadStep_nodup :
    ∀ (folders : List (List Char × FolderEntry))
      (acc : List (PyJson × PyJsonFields)),
      (acc.map Prod.fst).Nodup →
      ((folders.foldl loadStep acc).map Prod.fst).Nodup := by
  intro folders
  induction folders with
  | nil => intro acc h; exact h
  | cons folder rest ih =>
    intro acc h
    simp only [List.foldl_cons]
    refine ih _ ?_
    unfold loadStep
    rcases folder.2 with _ | _ | ⟨fields, env⟩
    · exact h
    · exact h
    · dsimp only
      by_cases hreq : requiredFieldsPresent fields
      · rw [if_pos hreq]
        rcases hname : jget fields "name".data with _ | name
        · exact h
        · dsimp only
          by_cases hhas : (regGet acc name).isSome
          · rw [if_pos hhas]
            exact h
          · rw [if_neg hhas]
            have hnone : regGet acc name = none := by
              rcases hacc : regGet acc name with _ | v
              · rfl
              · rw [hacc] at hhas
                exact absurd hhas (by simp)
            have hnotin := regGet_none_not_mem hnone
            rw [List.map_append]
            rw [List.nodup_append]
            refine ⟨h, by simp, ?_⟩
            intro a ha hb
            simp only [List.map_cons, List.map_nil, List.mem_singleton] at hb
            subst hb
            exact hnotin ha
      · rw [if_neg hreq]
        exact h

/-- Whether `json.loads` produced the structured result envelope: a json
object whose `status` is the string `success` or `error`. -/
def isEnvelopeB : Option PyJson → Bool
  | some (PyJson.obj f) => statusIsValid f
  | _ => false

/-! The claims. -/

/-- Claim C1: for a non-streaming request whose first model response
contains a valid tool-call block, the buffered orchestration loop with
`maxRounds = k` (default `maxRecursion = 5`) never issues more than `k`
upstream model calls for that request, whatever the model responses and
plugin outcomes are.  (The call that produced `firstContent` is made by
`chat_completions` before the loop starts.) -/
theorem c1_loop_call_bound (model : List ChatMsg → List Char)
    (toolExec : List Char → List (List Char × List Char) →
      Except (List Char) (List Char)) (showVcp : Bool) (k : Nat)
    (firstContent : List Char) (origMsgs : List ChatMsg)
    (h : parseMultipleVcpRequests firstContent ≠ []) :
    (handleNonStreamingToolCalls model toolExec showVcp k firstContent
      origMsgs).upstreamCalls ≤ k := by
  unfold handleNonStreamingToolCalls
  rw [if_neg (by simpa using h)]
  simpa using multiToolRounds_calls_le model toolExec showVcp k firstContent
    origMsgs [] 0

theorem c1_witness :
    (handleNonStreamingToolCalls (fun _ => []) (fun _ _ => Except.ok [])
      false maxRecursion
      "<<<[TOOL_REQUEST]>>>tool_name:「始」Echo「末」<<<[END_TOOL_REQUEST]>>>".data
      []).upstreamCalls ≤ maxRecursion :=
  c1_loop_call_bound _ _ _ _ _ _ (by decide)

/-- Claim C2 as stated is false: the execution namespace pre-populated by
`_create_safe_globals` contains the `os` and `pathlib` modules
(`code_executor.py:149-150`, commented "File operations"), so it does
contain filesystem and process-spawning primitives (`os.system`,
`os.popen`, `os.remove`, ...). -/
theorem c2_counterexample :
    ¬ (∀ n ∈ safeBuiltinsNames ++ executionGlobalNames,
        n ∉ filesystemNetworkProcessNames) := by decide

/-- Claim C2 amended: the `__builtins__` table of the namespace is indeed
restricted — none of `open`, `exec`, `eval`, `__import__`, `compile`,
`input` appears among its 27 safe operations — but the namespace itself
also includes the `os` and `pathlib` modules, so filesystem and (via
`os`) process-spawning primitives are reachable from executed scripts. -/
theorem c2_amended_restricted_builtins :
    ("open".data ∉ safeBuiltinsNames ∧ "exec".data ∉ safeBuiltinsNames ∧
      "eval".data ∉ safeBuiltinsNames ∧ "__import__".data ∉ safeBuiltinsNames ∧
      "compile".data ∉ safeBuiltinsNames ∧ "input".data ∉ safeBuiltinsNames) ∧
    "os".data ∈ executionGlobalNames ∧ "pathlib".data ∈ executionGlobalNames ∧
    "os".data ∈ filesystemNetworkProcessNames ∧
    "pathlib".data ∈ filesystemNetworkProcessNames := by decide

/-- Claim C3 as stated is false: on exit code 1 with stdout `42` — valid
json but not the envelope — the raised failure is the wrapped
`AttributeError` from `parsed_output.get` (`plugin_manager.py:542,567`),
not a message synthesized from the exit code and truncated outputs. -/
theorem c3_counterexample :
    ¬ (∀ (name : List Char) (parsed : Option PyJson) (rc : Int)
        (out eo : List Char), rc ≠ 0 → isEnvelopeB parsed = false →
        executePluginOutput name parsed rc out eo =
          PluginExecOutcome.err (wrapExecError name
            (synthExitMsg name rc out eo))) := by
  intro h
  have h2 := h "P".data (some (PyJson.num 42)) 1 "42".data [] (by decide) rfl
  rw [show executePluginOutput "P".data (some (PyJson.num 42)) 1 "42".data [] =
    PluginExecOutcome.err (wrapExecError "P".data (attrErrorMsg (PyJson.num 42)))
    from rfl] at h2
  injection h2 with h3
  exact absurd h3 (by decide)

/-- Claim C3 amended: on non-zero exit, a stdout parsing as the envelope
is returned as the result regardless of the exit code; a stdout that is
not valid json, or is a json object without a valid status, yields the
failure synthesized from the exit code plus stdout and stderr each
truncated to 200 characters (wrapped by the generic execution-failure
handler); but a stdout parsing to a non-object json value yields a generic
`AttributeError` failure carrying neither the exit code nor the outputs. -/
theorem c3_amended_output_handling (name : List Char) (parsed : Option PyJson)
    (rc : Int) (out eo : List Char) (hrc : rc ≠ 0) :
    (∀ f, parsed = some (PyJson.obj f) → statusIsValid f = true →
      executePluginOutput name parsed rc out eo =
        PluginExecOutcome.ok (PyJson.obj f)) ∧
    ((parsed = none ∨ ∃ f, parsed = some (PyJson.obj f) ∧
        statusIsValid f = false) →
      executePluginOutput name parsed rc out eo =
        PluginExecOutcome.err (wrapExecError name
          (synthExitMsg name rc out eo))) ∧
    (∀ j, parsed = some j → (∀ f, j ≠ PyJson.obj f) →
      executePluginOutput name parsed rc out eo =
        PluginExecOutcome.err (wrapExecError name (attrErrorMsg j))) := by
  refine ⟨?_, ?_, ?_⟩
  · intro f hp hs
    subst hp
    unfold executePluginOutput
    dsimp only
    rw [if_pos hs]
  · intro hp
    rcases hp with hp | ⟨f, hp, hs⟩
    · subst hp
      unfold executePluginOutput nonEnvelopeFallback
      rw [if_pos hrc]
    · subst hp
      unfold executePluginOutput
      dsimp only
      rw [hs, if_neg Bool.false_ne_true]
      unfold nonEnvelopeFallback
      rw [if_pos hrc]
  · intro j hp hno
    subst hp
    rcases j with _ | b | m | s | xs | f
    · rfl
    · rfl
    · rfl
    · rfl
    · rfl
    · exact absurd rfl (hno f)

theorem c3_witness :
    executePluginOutput "P".data
      (some (PyJson.obj (PyJsonFields.cons "status".data
        (PyJson.str "error".data) (PyJsonFields.cons "error".data
          (PyJson.str "boom".data) PyJsonFields.nil)))) 3 "o".data "e".data =
      PluginExecOutcome.ok (PyJson.obj (PyJsonFields.cons "status".data
        (PyJson.str "error".data) (PyJsonFields.cons "error".data
          (PyJson.str "boom".data) PyJsonFields.nil))) :=
  (c3_amended_output_handling "P".data _ 3 "o".data "e".data
    (by decide)).1 _ rfl (by decide)

/-- Claim C4: a tool-call block lacking the reserved `tool_name` key
yields zero requests for that whole block (never a partial request), and
content whose end marker is missing yields no request at all; both parse
functions are total Lean functions, so no execution path raises. -/
theorem c4_parse_discards_invalid_blocks :
    (∀ b rest : List Char,
      containsSub endMarker (startMarker ++ b) = false →
      (∀ kv ∈ findIter (pstrip b), kv.1 ≠ toolNameKey) →
      parseMultipleVcpRequests (startMarker ++ b ++ endMarker ++ rest) =
        parseMultipleVcpRequests rest) ∧
    (∀ content : List Char, containsSub endMarker content = false →
      parseMultipleVcpRequests content = [] ∧ parseVcpRequest content = none) := by
  constructor
  · intro b rest hno hkeys
    have hnoB : noOccur endMarker (startMarker ++ b) :=
      containsSub_eq_false_iff.mp hno
    have hnorm : startMarker ++ b ++ endMarker ++ rest =
        (startMarker ++ b) ++ endMarker ++ rest := by
      simp [List.append_assoc]
    rw [hnorm]
    have h1 : findSub startMarker ((startMarker ++ b) ++ endMarker ++ rest) =
        some 0 := by
      refine findSub_of_isPre ?_
      rw [List.append_assoc, List.append_assoc]
      exact isPre_append_self _ _
    have h2 : findSub endMarker ((startMarker ++ b) ++ endMarker ++ rest) =
        some (startMarker ++ b).length :=
      findSub_boundary (by unfold selfNoOverlap; decide) _ _ hnoB
    rw [parseMultiple_step h1 (by rw [List.drop_zero]; exact h2)]
    rw [List.drop_zero]
    have hblock : pstrip ((((startMarker ++ b) ++ endMarker ++ rest).take
        (startMarker ++ b).length).drop startMarker.length) = pstrip b := by
      rw [show (startMarker ++ b) ++ endMarker ++ rest =
        (startMarker ++ b) ++ (endMarker ++ rest) from by
          simp [List.append_assoc]]
      rw [List.take_left, List.drop_left]
    rw [hblock, buildFromPairs_no_toolName _ hkeys]
    have hrest : ((startMarker ++ b) ++ endMarker ++ rest).drop
        ((startMarker ++ b).length + endMarker.length) = rest := by
      rw [show (startMarker ++ b) ++ endMarker ++ rest =
        ((startMarker ++ b) ++ endMarker) ++ rest from by
          simp [List.append_assoc]]
      rw [show (startMarker ++ b).length + endMarker.length =
        ((startMarker ++ b) ++ endMarker).length from
          (List.length_append _ _).symm]
      exact List.drop_left _ _
    rw [hrest]
    rfl
  · intro content h
    have hno : noOccur endMarker content := containsSub_eq_false_iff.mp h
    have hend : ∀ i, findSub endMarker (content.drop i) = none := by
      intro i
      refine (findSub_eq_none_iff _ _).mpr ?_
      intro m
      rw [List.drop_drop]
      exact hno _
    constructor
    · rcases hs : findSub startMarker content with _ | i
      · exact parseMultiple_noStart hs
      · exact parseMultiple_noEnd hs (hend i)
    · rcases hs : findSub startMarker content with _ | i
      · exact parseVcp_none_noStart hs
      · exact parseVcp_none_noEnd hs (hend i)

theorem c4_witness :
    parseMultipleVcpRequests (startMarker ++ "arg:「始」x「末」".data ++
      endMarker ++ []) = parseMultipleVcpRequests [] ∧
    parseMultipleVcpRequests "<<<[TOOL_REQUEST]>>>tool_name:「始」x「末」".data = [] :=
  ⟨c4_parse_discards_invalid_blocks.1 "arg:「始」x「末」".data []
      (by decide) (by decide),
    (c4_parse_discards_invalid_blocks.2
      "<<<[TOOL_REQUEST]>>>tool_name:「始」x「末」".data (by decide)).1⟩

/-- Claim C5 as stated is false: a successful refresh can legitimately
cache a value that itself begins with `"[Error"` (that is what the plugin
printed), and a subsequent refresh failure then overwrites it with a fresh
error marker (`plugin_manager.py:172`). -/
theorem c5_counterexample :
    updateStaticPluginValue "P".data ["W".data]
      (Except.ok "[Error code 7]".data) [] =
      [("W".data, "[Error code 7]".data)] ∧
    cacheGet (updateStaticPluginValue "P".data ["W".data]
      (Except.error "boom".data) [("W".data, "[Error code 7]".data)])
      "W".data = some (errorMarker "P".data "boom".data) ∧
    errorMarker "P".data "boom".data ≠ "[Error code 7]".data := by decide

/-- Claim C5 amended: after a successful refresh cached a value, a
subsequent refresh failure leaves that value unchanged provided the value
does not itself start with `"[Error"`; a cached value beginning with
`"[Error"` is replaced by a fresh error marker, and otherwise only a
successful refresh overwrites the cache. -/
theorem c5_amended_failure_keeps_value (pluginName e key v : List Char)
    (placeholders : List (List Char)) (cache : List (List Char × List Char))
    (hv : cacheGet cache key = some v) (hne : v ≠ [])
    (hmark : isPre "[Error".data v = false) :
    cacheGet (updateStaticPluginValue pluginName placeholders
      (Except.error e) cache) key = some v := by
  unfold updateStaticPluginValue
  revert cache
  induction placeholders with
  | nil =>
    intro cache hv
    exact hv
  | cons ph rest ih =>
    intro cache hv
    simp only [List.foldl_cons]
    exact ih _ (updatePlaceholder_error_keeps hv hne hmark ph)

theorem c5_witness :
    cacheGet (updateStaticPluginValue "P".data ["W".data]
      (Except.error "boom".data) [("W".data, "cached".data)]) "W".data =
      some "cached".data :=
  c5_amended_failure_keeps_value "P".data "boom".data "W".data "cached".data
    ["W".data] [("W".data, "cached".data)] (by decide) (by decide) (by decide)

/-- Claim C6: after any scan, the registry maps each name to the first
well-formed manifest carrying it — so of two well-formed manifests with
the same name only the first is kept and the second never appears — and
the registered names are globally unique. -/
theorem c6_duplicate_name_keeps_first (folders : List (List Char × FolderEntry)) :
    ((loadPlugins folders).map Prod.fst).Nodup ∧
    ∀ n, regGet (loadPlugins folders) n = firstValidManifest folders n := by
  constructor
  · exact foldl_loadStep_nodup folders [] (by simp)
  · intro n
    have h := foldl_loadStep_regGet folders [] n
    rw [show regGet [] n = none from rfl] at h
    exact h

/-- Claim C7 is contradicted by the code (code bug): on an accumulated
streaming response containing both a python code block and a tool-call
block, the code-execution branch runs AND the tool-call path is also
taken — the check at `server.py:1070` is unconditional, unlike the
buffered handler, which returns inside every code-block branch
(`server.py:1165-1205`). -/
theorem c7_streaming_both_paths :
    streamingDetectionActions ("```python\nprint(1)\n```\n".data ++
      renderRequest ⟨"Echo".data, []⟩) =
      [StreamAction.codeExecution, StreamAction.toolCallDetected] := by decide

def c8Requests : List VcpRequest :=
  [⟨"Echo".data, [("a".data, " x".data), ("b".data, "y".data),
    ("c".data, "z".data)]⟩]

/-- Claim C8 as stated is false: with three valid keys and values free of
the end-marker and value-quote glyphs, a value carrying leading whitespace
does not round-trip — the parser strips every value
(`server.py:466,509`). -/
theorem c8_counterexample :
    (∀ r ∈ c8Requests,
      r.tool_name ≠ [] ∧ cleanValue r.tool_name ∧ trimmedValue r.tool_name ∧
      r.args.length = 3 ∧ (r.args.map Prod.fst).Nodup ∧
      ∀ kv ∈ r.args, wordKey kv.1 ∧ kv.1 ≠ toolNameKey ∧ cleanValue kv.2) ∧
    parseMultipleVcpRequests (renderRequests c8Requests) ≠ c8Requests := by
  decide

/-- Claim C8 amended: rendering and reparsing is the identity on request
lists with three valid key/value pairs per block whose values contain
neither the end marker nor the value-quote glyphs AND are unchanged by
whitespace trimming. -/
theorem c8_amended_roundtrip (rs : List VcpRequest)
    (h : ∀ r ∈ rs, validRequest r) (h3 : ∀ r ∈ rs, r.args.length = 3) :
    parseMultipleVcpRequests (renderRequests rs) = rs :=
  parseMultiple_render rs h

theorem c8_witness :
    parseMultipleVcpRequests (renderRequests
      [⟨"Echo".data, [("a".data, "x".data), ("b".data, "y".data),
        ("c".data, "z".data)]⟩]) =
      [⟨"Echo".data, [("a".data, "x".data), ("b".data, "y".data),
        ("c".data, "z".data)]⟩] :=
  c8_amended_roundtrip _ (by decide) (by decide)

/-- Claim C9 is contradicted by the code (code bug): `print(1+1)` under a
5-second budget succeeds but captures stdout `"2\n2\n"`, not `"2\n"` —
`execute_code` re-evaluates the last source line inside the same output
capture (`code_executor.py:216-227`), printing a second time.  This also
contradicts the docstring example of `execute_ai_code`
(`code_executor.py:319-322`). -/
theorem c9_double_print :
    executeAiCode [PyStmt.printStmt (PyExpr.add (PyExpr.intLit 1)
      (PyExpr.intLit 1))] 5 =
      ⟨true, "2\n2\n".data, [], none⟩ ∧
    ("2\n2\n".data : List Char) ≠ "2\n".data := by
  constructor
  · rfl
  · decide

/-- Claim C10: in streaming mode only the first tool-call block of the
accumulated text is parsed — over any rendered block list the single-block
parse yields exactly the first request, whatever follows — the detection
takes the tool path at most once per request, and (contrast) the buffered
parser returns every block in order. -/
theorem c10_streaming_first_block_only (r : VcpRequest) (rs : List VcpRequest)
    (hr : validRequest r) (hall : ∀ x ∈ rs, validRequest x) :
    parseVcpRequest (renderRequests (r :: rs)) = some r ∧
    parseMultipleVcpRequests (renderRequests (r :: rs)) = r :: rs ∧
    ∀ sse, ((streamingDetectionActions sse).count
      StreamAction.toolCallDetected) ≤ 1 := by
  refine ⟨?_, ?_, ?_⟩
  · rw [show renderRequests (r :: rs) = renderRequest r ++ renderRequests rs
      from rfl]
    rw [parseVcp_render r _ (validRequest_renderable hr)]
    rw [stripRequest_eq_self hr]
  · refine parseMultiple_render _ ?_
    intro x hx
    rcases List.mem_cons.mp hx with hx | hx
    · subst hx
      exact hr
    · exact hall x hx
  · intro sse
    unfold streamingDetectionActions
    by_cases h1 : hasCodeBlocks sse = true
    · rw [if_pos h1]
      by_cases h2 : (parseVcpRequest sse).isSome = true
      · rw [if_pos h2]
        decide
      · rw [if_neg h2]
        decide
    · rw [if_neg h1]
      by_cases h2 : (parseVcpRequest sse).isSome = true
      · rw [if_pos h2]
        decide
      · rw [if_neg h2]
        decide

theorem c10_witness :
    parseVcpRequest (renderRequests [⟨"A".data, []⟩, ⟨"B".data, []⟩]) =
      some ⟨"A".data, []⟩ ∧
    parseMultipleVcpRequests (renderRequests [⟨"A".data, []⟩, ⟨"B".data, []⟩]) =
      [⟨"A".data, []⟩, ⟨"B".data, []⟩] :=
  ⟨(c10_streaming_first_block_only ⟨"A".data, []⟩ [⟨"B".data, []⟩]
      (by decide) (by decide)).1,
    (c10_streaming_first_block_only ⟨"A".data, []⟩ [⟨"B".data, []⟩]
      (by decide) (by decide)).2.1⟩

end MeetWith
